import Mathlib

/-
Verification of the cloud_mdir_sync reconciliation engine and
authentication broker (src/cloud_mdir_sync/main.py, oauth.py, config.py).

Python dictionaries are embedded as association lists with Python's
insertion semantics (assignment to an existing key keeps its position,
a new key is appended; `del` removes the unique entry).  Raised Python
exceptions are embedded as `Except PyExc` results, and the calls the
engine makes on its external collaborators (mailbox refresh, force,
merge, waiting on the changed event, teardown) are recorded as an event
trace in program order.
-/

set_option autoImplicit false

/-- Association-list lookup, modelling Python dict indexing `d[k]`
(`none` models a raised `KeyError`). -/
def alookup {α β : Type} [DecidableEq α] : List (α × β) → α → Option β
  | [], _ => none
  | (k, v) :: t, a => if k = a then some v else alookup t a

/-- Association-list insert-or-overwrite, modelling Python dict assignment
`d[k] = v`: an existing key keeps its position, a new key is appended. -/
def aupsert {α β : Type} [DecidableEq α] : List (α × β) → α → β → List (α × β)
  | [], a, b => [(a, b)]
  | (k, v) :: t, a, b => if k = a then (a, b) :: t else (k, v) :: aupsert t a b

/-- Association-list delete, modelling Python `del d[k]` (removes the first
entry with the given key). -/
def aerase {α β : Type} [DecidableEq α] : List (α × β) → α → List (α × β)
  | [], _ => []
  | (k, v) :: t, a => if k = a then t else (k, v) :: aerase t a

/-- The keys of an association list, in order. -/
def akeys {α β : Type} (l : List (α × β)) : List α := l.map Prod.fst

/-- A message record as the engine sees it: the owning cloud mailbox
back-reference (`msg.mailbox`) and an opaque body identifier. -/
structure Msg where
  mailbox : Nat
  content : Nat
deriving DecidableEq, Repr

/-- A mailbox snapshot: ChangeKey-to-MessageRecord mapping (`mbox.messages`). -/
abbrev Snapshot := List (Nat × Msg)

/-- The routing result of `force_local_to_cloud`: local mailbox to target
snapshot (`messages.MBoxDict_Type`). -/
abbrev MBoxDict := List (Nat × Snapshot)

/-- Tuple-form snapshot used by `update_cloud_from_local`:
ChangeKey to (local record or absent, cloud record). -/
abbrev TupleSnap := List (Nat × (Option Msg × Msg))

/-- Grouping of tuple-form entries by owning cloud mailbox
(`messages.CHMsgMappingDict_Type` keyed by mailbox). -/
abbrev CloudDict := List (Nat × TupleSnap)

/-- The Python exception kinds relevant to `synchronize_mail`. `other`
stands for any exception class not named in the source. -/
inductive PyExc where
  | fileNotFoundError
  | timeoutError
  | clientError
  | ioError
  | runtimeError
  | keyError
  | indexError
  | other (n : Nat)
deriving DecidableEq, Repr

/-- The observable calls the engine makes, in program order. -/
inductive Event where
  | refresh (mbox : Nat)
  | forceContent (mbox : Nat) (target : Snapshot)
  | mergeContent (mbox : Nat) (tuples : TupleSnap)
  | waitChanged
  | cleanupMsgs
  | logRetry
  | sleepSecs (n : Nat)
  | closeDomain (d : Nat)
  | closeWebApp
deriving DecidableEq, Repr

/-- The configuration and mailbox state visible to one reconciliation
step.  Mailboxes are named by `Nat` identifiers; `messages` gives each
mailbox's current snapshot; `same_messages` and `same_messages_tuple`
are the (external, pure) comparison `mbox.same_messages(c)` and
`mbox.same_messages(c, tuple_form=True)`; `route` is `cfg.direct_message`
where `none` models a raised exception; `domains` are the keys of
`cfg.domains`. -/
structure Config where
  local_mboxes : List Nat
  cloud_mboxes : List Nat
  messages : Nat → Snapshot
  need_update : Nat → Bool
  same_messages : Nat → Snapshot → Bool
  same_messages_tuple : Nat → TupleSnap → Bool
  route : Msg → Option Nat
  domains : List Nat

/-- `itertools.chain(self.local_mboxes, self.cloud_mboxes)` (config.py,
`all_mboxes`). -/
def Config.all_mboxes (cfg : Config) : List Nat :=
  cfg.local_mboxes ++ cfg.cloud_mboxes

/-- The default routing policy `Config._direct_message`:
`return self.local_mboxes[0]`; `none` models the `IndexError` raised when
the list is empty. -/
def defaultRoute (cfg : Config) : Msg → Option Nat :=
  fun _ => cfg.local_mboxes.head?

/-- The initial target dictionary of `force_local_to_cloud`:
`for mbox in cfg.local_mboxes: msgs[mbox] = {}`. -/
def initTargets (locals : List Nat) : MBoxDict :=
  locals.foldl (fun d l => aupsert d l []) []

/-- One routing insertion `msgs[dest][ch] = msg`; reading `msgs[dest]`
raises `KeyError` when `dest` is not a key of `msgs`. -/
def routeInsert (d : MBoxDict) (dest ch : Nat) (m : Msg) :
    Except PyExc MBoxDict :=
  match alookup d dest with
  | none => .error .keyError
  | some snap => .ok (aupsert d dest (aupsert snap ch m))

/-- The inner loop of `force_local_to_cloud` over one cloud snapshot:
`for ch,msg in mbox.messages.items(): dest = cfg.direct_message(msg);
msgs[dest][ch] = msg`. -/
def routeSnap (cfg : Config) : MBoxDict → Snapshot → Except PyExc MBoxDict
  | d, [] => .ok d
  | d, (ch, m) :: rest =>
    match cfg.route m with
    | none => .error .indexError
    | some dest =>
      match routeInsert d dest ch m with
      | .error e => .error e
      | .ok d' => routeSnap cfg d' rest

/-- The outer loop of `force_local_to_cloud` over `cfg.cloud_mboxes`. -/
def routeClouds (cfg : Config) : MBoxDict → List Nat → Except PyExc MBoxDict
  | d, [] => .ok d
  | d, c :: rest =>
    match routeSnap cfg d (cfg.messages c) with
    | .error e => .error e
    | .ok d' => routeClouds cfg d' rest

/-- The routing computation of `force_local_to_cloud` (main.py lines
19-25): the target snapshot of every local mailbox. -/
def routeMsgs (cfg : Config) : Except PyExc MBoxDict :=
  routeClouds cfg (initTargets cfg.local_mboxes) cfg.cloud_mboxes

/-- The force step of `force_local_to_cloud` (main.py lines 27-29):
`for mbox, msgdict in msgs.items(): if not mbox.same_messages(msgdict):
mbox.force_content(cfg.msgdb, msgdict)`, recorded as events. -/
def forceEvents (cfg : Config) (msgs : MBoxDict) : List Event :=
  msgs.filterMap fun p =>
    if cfg.same_messages p.1 p.2 then none
    else some (.forceContent p.1 p.2)

/-- `force_local_to_cloud(cfg)` (main.py lines 14-30): the
`force_content` calls it makes together with its return value `msgs`. -/
def force_local_to_cloud (cfg : Config) :
    Except PyExc (List Event × MBoxDict) :=
  match routeMsgs cfg with
  | .error e => .error e
  | .ok msgs => .ok (forceEvents cfg msgs, msgs)

/-- The initial grouping dictionary of `update_cloud_from_local`:
`for mbox in cfg.cloud_mboxes: msgs_by_cloud[mbox] = {}`. -/
def initClouds (clouds : List Nat) : CloudDict :=
  clouds.foldl (fun d c => aupsert d c []) []

/-- One grouping insertion
`msgs_by_cloud[cloud_msg.mailbox][ch] = (local_mbox.messages.get(ch), cloud_msg)`. -/
def cloudInsert (d : CloudDict) (c ch : Nat) (t : Option Msg × Msg) :
    Except PyExc CloudDict :=
  match alookup d c with
  | none => .error .keyError
  | some snap => .ok (aupsert d c (aupsert snap ch t))

/-- Inner loop of `update_cloud_from_local` over one local target
snapshot. -/
def groupSnap (cfg : Config) (lm : Nat) :
    CloudDict → Snapshot → Except PyExc CloudDict
  | d, [] => .ok d
  | d, (ch, cmsg) :: rest =>
    match cloudInsert d cmsg.mailbox ch
        (alookup (cfg.messages lm) ch, cmsg) with
    | .error e => .error e
    | .ok d' => groupSnap cfg lm d' rest

/-- Outer loop of `update_cloud_from_local` over `msgs_by_local.items()`. -/
def groupLocals (cfg : Config) :
    CloudDict → MBoxDict → Except PyExc CloudDict
  | d, [] => .ok d
  | d, (lm, snap) :: rest =>
    match groupSnap cfg lm d snap with
    | .error e => .error e
    | .ok d' => groupLocals cfg d' rest

/-- The grouping computation of `update_cloud_from_local` (main.py lines
37-43). -/
def groupByCloud (cfg : Config) (msgs_by_local : MBoxDict) :
    Except PyExc CloudDict :=
  groupLocals cfg (initClouds cfg.cloud_mboxes) msgs_by_local

/-- The merge step of `update_cloud_from_local` (main.py lines 44-46):
`merge_content(msgdict)` on every cloud mailbox whose grouped tuple-set
fails `same_messages(msgdict, tuple_form=True)`. -/
def mergeEvents (cfg : Config) (byCloud : CloudDict) : List Event :=
  byCloud.filterMap fun p =>
    if cfg.same_messages_tuple p.1 p.2 then none
    else some (.mergeContent p.1 p.2)

/-- `update_cloud_from_local(cfg, msgs_by_local)` (main.py lines 33-46):
the `merge_content` calls it makes. -/
def update_cloud_from_local (cfg : Config) (msgs_by_local : MBoxDict) :
    Except PyExc (List Event) :=
  match groupByCloud cfg msgs_by_local with
  | .error e => .error e
  | .ok byCloud => .ok (mergeEvents cfg byCloud)

/-- The refresh fan-out (main.py lines 61-63):
`update_message_list` on every mailbox with `need_update` set. -/
def refreshEvents (cfg : Config) : List Event :=
  (cfg.all_mboxes.filter cfg.need_update).map .refresh

/-- The exception tuple of main.py lines 69-71:
`except (FileNotFoundError, asyncio.TimeoutError,
aiohttp.client_exceptions.ClientError, IOError, RuntimeError)`. -/
def transient_caught : PyExc → Bool
  | .fileNotFoundError => true
  | .timeoutError => true
  | .clientError => true
  | .ioError => true
  | .runtimeError => true
  | _ => false

/-- How one loop iteration of `synchronize_mail` ends: retry after a
caught transient failure, proceed to the wait, or terminate the loop
with an uncaught exception. -/
inductive Outcome where
  | retry
  | wait
  | fatal (e : PyExc)
deriving DecidableEq, Repr

/-- The `except` handler (main.py lines 69-75): a caught exception is
logged (`cfg.logger.exception(...)`), followed by `asyncio.sleep(10)`
and `continue`; an uncaught one terminates the loop. -/
def retryOr (evs : List Event) (msgs : Option MBoxDict) (e : PyExc) :
    List Event × Option MBoxDict × Outcome :=
  if transient_caught e then
    (evs ++ [.logRetry, .sleepSecs 10], msgs, .retry)
  else (evs, msgs, .fatal e)

/-- Exceptions injected by the external collaborators during one
iteration: a failure inside the refresh gather, the merge gather, or a
`force_content` call. -/
structure Env where
  refreshExc : Option PyExc
  mergeExc : Option PyExc
  forceExc : Option PyExc

/-- An injected exception is only possible when the step actually made
calls (an empty `asyncio.gather` cannot fail). -/
def guardExc (evs : List Event) (exc : Option PyExc) : Option PyExc :=
  match evs with
  | [] => none
  | _ => exc

/-- The merge step as the loop body runs it: skipped when `msgs is
None` (the very first iteration), otherwise `update_cloud_from_local`
on the previous iteration's routing result. -/
def mergeStep (cfg : Config) : Option MBoxDict → Except PyExc (List Event)
  | none => .ok []
  | some m => update_cloud_from_local cfg m

/-- One iteration of the `while True` loop of `synchronize_mail`
(main.py lines 59-80): refresh, then `update_cloud_from_local` on the
previous iteration's `msgs` (skipped when `msgs is None`), then
`force_local_to_cloud`, then the wait on the changed event and
`cleanup_msgs`.  Returns the event trace, the value of `msgs` after the
iteration, and how the iteration ended. -/
def runCycle (cfg : Config) (msgs : Option MBoxDict) (env : Env) :
    List Event × Option MBoxDict × Outcome :=
  match guardExc (refreshEvents cfg) env.refreshExc with
  | some e => retryOr (refreshEvents cfg) msgs e
  | none =>
    match mergeStep cfg msgs with
    | .error pe => retryOr (refreshEvents cfg) msgs pe
    | .ok mEvs =>
      match guardExc mEvs env.mergeExc with
      | some e => retryOr (refreshEvents cfg ++ mEvs) msgs e
      | none =>
        match force_local_to_cloud cfg with
        | .error pe => retryOr (refreshEvents cfg ++ mEvs) msgs pe
        | .ok (fEvs, newMsgs) =>
          match guardExc fEvs env.forceExc with
          | some e => retryOr (refreshEvents cfg ++ mEvs ++ fEvs) msgs e
          | none =>
            (refreshEvents cfg ++ mEvs ++ fEvs
               ++ [.waitChanged, .cleanupMsgs],
             some newMsgs, .wait)

/-- The `while True` loop driven by a finite schedule of environment
behaviours, one per iteration: a retry keeps `msgs` and loops, a fatal
exception leaves the loop carrying the exception, exhausting the
schedule cuts the (infinite) loop off without an exception. -/
def runCycles (cfg : Config) :
    Option MBoxDict → List Env → List Event × Option PyExc
  | _, [] => ([], none)
  | msgs, env :: rest =>
    match runCycle cfg msgs env with
    | (evs, _, .fatal e) => (evs, some e)
    | (evs, msgs', _) =>
      (evs ++ (runCycles cfg msgs' rest).1, (runCycles cfg msgs' rest).2)

/-- How the body of `synchronize_mail`'s `try` block plays out:
`web_app.go()` fails, the `setup_mbox` gather fails, or the loop runs. -/
inductive StartPhase where
  | goFail (e : PyExc)
  | setupFail (e : PyExc)
  | loopRun

/-- The `try` body of `synchronize_mail` (main.py lines 52-80). -/
def syncBody (cfg : Config) (phase : StartPhase) (cycles : List Env) :
    List Event × Option PyExc :=
  match phase with
  | .goFail e => ([], some e)
  | .setupFail e => ([], some e)
  | .loopRun => runCycles cfg none cycles

/-- The `finally` block of `synchronize_mail` (main.py lines 81-85):
`domain.close()` for every entry of `cfg.domains`, then
`cfg.web_app.close()`. -/
def teardown (cfg : Config) : List Event :=
  cfg.domains.map .closeDomain ++ [.closeWebApp]

/-- `synchronize_mail(cfg)` (main.py lines 49-85): the `try` body
followed unconditionally by the `finally` teardown, carrying out any
uncaught exception. -/
def synchronize_mail (cfg : Config) (phase : StartPhase)
    (cycles : List Env) : List Event × Option PyExc :=
  ((syncBody cfg phase cycles).1 ++ teardown cfg,
   (syncBody cfg phase cycles).2)

/-- An HTTP callback request's query parameters (oauth.py):
`state` is `request.query["state"]` when present, and `rest` stands for
the remaining provider parameters, so the whole `Query` value is "the
full query-parameter set" a resolved caller receives. -/
structure Query where
  state : Option String
  rest : Nat
deriving DecidableEq, Repr

/-- The state of the `WebServer` broker (oauth.py): `auth_redirs` is the
pending mapping state-token to (target url, the waiting caller's queue,
named by a `Nat` identifier); `delivered` records every
`queue.put_nowait(request.query)` as (queue identifier, query), i.e.
which suspended caller was resolved with which parameter set. -/
structure WS where
  auth_redirs : List (String × (String × Nat))
  delivered : List (Nat × Query)
deriving DecidableEq, Repr

/-- The broker right after `WebServer.__init__`. -/
def emptyWS : WS := ⟨[], []⟩

/-- `WebServer.url = "http://localhost:8080/"`, the root URL the
callback handler falls back to. -/
def webServerRootURL : String := "http://localhost:8080/"

/-- `auth_redir(url, state)` up to its suspension point (oauth.py lines
31-38): create a fresh queue `qid` and set
`self.auth_redirs[state] = (url, queue)`. -/
def auth_redir (ws : WS) (url state : String) (qid : Nat) : WS :=
  { ws with auth_redirs := aupsert ws.auth_redirs state (url, qid) }

/-- What an oauth.py HTTP handler does to the browser: raise
`HTTPFound` (a redirect) or die on an uncaught `KeyError`. -/
inductive HttpResult where
  | keyError
  | found (target : String)
deriving DecidableEq, Repr

/-- The trailing redirect loop of `_oauth2_msal`:
`for I in self.auth_redirs.values(): raise aiohttp.web.HTTPFound(I[0])`
followed by `raise aiohttp.web.HTTPFound(self.url)`.  Dict iteration is
in insertion order, so the first remaining entry wins. -/
def redirTarget (ws : WS) : String :=
  match ws.auth_redirs with
  | [] => webServerRootURL
  | (_, (u, _)) :: _ => u

/-- The `try`/`except KeyError` body of `_oauth2_msal`: on a matching
pending entry, remove it and `put_nowait` the full query to its queue;
otherwise leave the state unchanged. -/
def msalState (ws : WS) (s : String) (q : Query) : WS :=
  match alookup ws.auth_redirs s with
  | none => ws
  | some (_, qid) =>
    ⟨aerase ws.auth_redirs s, ws.delivered ++ [(qid, q)]⟩

/-- `_oauth2_msal(request)` (oauth.py lines 48-60):
`state = request.query["state"]` (uncaught `KeyError` when absent),
then the `try`/`except` body, then the redirect loop. -/
def oauth2_msal (ws : WS) (q : Query) : WS × HttpResult :=
  match q.state with
  | none => (ws, .keyError)
  | some s => (msalState ws s q, .found (redirTarget (msalState ws s q)))

/-- Register a batch of `auth_redir` calls, in order: each element is
(state token, (target url, fresh queue identifier)). -/
def regAll (ws : WS) : List (String × (String × Nat)) → WS
  | [] => ws
  | (s, u, qid) :: rest => regAll (auth_redir ws u s qid) rest

/-- Deliver a batch of callback requests to `_oauth2_msal`, in order,
keeping only the broker state. -/
def processCbs (ws : WS) : List Query → WS
  | [] => ws
  | q :: rest => processCbs (oauth2_msal ws q).1 rest

/-- One broker operation: an `auth_redir` registration or an incoming
callback request. -/
inductive Op where
  | redir (url state : String) (qid : Nat)
  | callback (q : Query)

/-- Apply one broker operation to the broker state. -/
def stepOp (ws : WS) : Op → WS
  | .redir u s qid => auth_redir ws u s qid
  | .callback q => (oauth2_msal ws q).1

/-- Apply a sequence of broker operations. -/
def runOps (ws : WS) : List Op → WS
  | [] => ws
  | op :: rest => runOps (stepOp ws op) rest

theorem alookup_aupsert_self {α β : Type} [DecidableEq α]
    (l : List (α × β)) (k : α) (v : β) :
    alookup (aupsert l k v) k = some v := by
  induction l with
  | nil => simp [aupsert, alookup]
  | cons p t ih =>
    obtain ⟨k', v'⟩ := p
    by_cases hk : k' = k
    · subst hk
      simp [aupsert, alookup]
    · simp [aupsert, alookup, hk, ih]

theorem alookup_aupsert_ne {α β : Type} [DecidableEq α]
    (l : List (α × β)) (k a : α) (v : β) (h : k ≠ a) :
    alookup (aupsert l k v) a = alookup l a := by
  induction l with
  | nil => simp [aupsert, alookup, h]
  | cons p t ih =>
    obtain ⟨k', v'⟩ := p
    by_cases hk : k' = k
    · subst hk
      simp [aupsert, alookup, h]
    · simp [aupsert, alookup, hk, ih]


theorem akeys_nil {α β : Type} : akeys ([] : List (α × β)) = [] := rfl

theorem akeys_cons {α β : Type} (k : α) (v : β) (t : List (α × β)) :
    akeys ((k, v) :: t) = k :: akeys t := rfl

theorem aerase_sublist {α β : Type} [DecidableEq α]
    (l : List (α × β)) (k : α) :
    List.Sublist (aerase l k) l := by
  induction l with
  | nil => simp [aerase]
  | cons p t ih =>
    obtain ⟨k', v'⟩ := p
    by_cases hk : k' = k
    · rw [aerase, if_pos hk]
      exact List.sublist_cons_self _ _
    · rw [aerase, if_neg hk]
      exact ih.cons₂ _

theorem alookup_aerase_ne {α β : Type} [DecidableEq α]
    (l : List (α × β)) (k a : α) (h : k ≠ a) :
    alookup (aerase l k) a = alookup l a := by
  induction l with
  | nil => simp [aerase]
  | cons p t ih =>
    obtain ⟨k', v'⟩ := p
    by_cases hk : k' = k
    · subst hk
      simp [aerase, alookup, h]
    · simp [aerase, alookup, hk, ih]

theorem mem_aupsert {α β : Type} [DecidableEq α]
    {l : List (α × β)} {k : α} {v : β} {p : α × β}
    (h : p ∈ aupsert l k v) : p = (k, v) ∨ p ∈ l := by
  induction l with
  | nil => simpa [aupsert] using h
  | cons q t ih =>
    obtain ⟨k', v'⟩ := q
    by_cases hk : k' = k
    · subst hk
      rcases (by simpa [aupsert] using h : p = (k', v) ∨ p ∈ t) with h1 | h1
      · exact Or.inl h1
      · exact Or.inr (List.mem_cons_of_mem _ h1)
    · rcases (by simpa [aupsert, hk] using h :
        p = (k', v') ∨ p ∈ aupsert t k v) with h1 | h1
      · exact Or.inr (by simp [h1])
      · rcases ih h1 with h2 | h2
        · exact Or.inl h2
        · exact Or.inr (List.mem_cons_of_mem _ h2)

theorem alookup_mem {α β : Type} [DecidableEq α]
    {l : List (α × β)} {k : α} {v : β}
    (h : alookup l k = some v) : (k, v) ∈ l := by
  induction l with
  | nil => simp [alookup] at h
  | cons q t ih =>
    obtain ⟨k', v'⟩ := q
    by_cases hk : k' = k
    · subst hk
      simp [alookup] at h
      simp [h]
    · exact List.mem_cons_of_mem _ (ih (by simpa [alookup, hk] using h))

theorem alookup_eq_none_iff {α β : Type} [DecidableEq α]
    (l : List (α × β)) (k : α) :
    alookup l k = none ↔ k ∉ akeys l := by
  induction l with
  | nil => simp [alookup, akeys]
  | cons q t ih =>
    obtain ⟨k', v'⟩ := q
    rw [akeys_cons]
    by_cases hk : k' = k
    · subst hk
      simp [alookup]
    · simp only [alookup, if_neg hk, List.mem_cons]
      rw [ih]
      constructor
      · intro hn hc
        rcases hc with hc | hc
        · exact hk hc.symm
        · exact hn hc
      · intro hn
        exact fun hc => hn (Or.inr hc)

theorem mem_alookup_of_nodup {α β : Type} [DecidableEq α]
    {l : List (α × β)} {k : α} {v : β}
    (hn : (akeys l).Nodup) (h : (k, v) ∈ l) : alookup l k = some v := by
  induction l with
  | nil => simp at h
  | cons q t ih =>
    obtain ⟨k', v'⟩ := q
    rw [akeys_cons, List.nodup_cons] at hn
    rcases List.mem_cons.mp h with h1 | h1
    · obtain ⟨h2, h3⟩ := Prod.mk.injEq k v k' v' ▸ h1
      subst h2
      subst h3
      simp [alookup]
    · by_cases hk : k' = k
      · subst hk
        exact absurd (List.mem_map_of_mem Prod.fst h1) hn.1
      · simpa [alookup, hk] using ih hn.2 h1

theorem akeys_aupsert {α β : Type} [DecidableEq α]
    (l : List (α × β)) (k : α) (v : β) :
    akeys (aupsert l k v) =
      if k ∈ akeys l then akeys l else akeys l ++ [k] := by
  induction l with
  | nil => simp [aupsert, akeys]
  | cons q t ih =>
    obtain ⟨k', v'⟩ := q
    by_cases hk : k' = k
    · subst hk
      simp [aupsert, akeys_cons, List.mem_cons]
    · have hne : ¬k = k' := fun hh => hk hh.symm
      rw [aupsert, if_neg hk, akeys_cons, akeys_cons, ih]
      by_cases hm : k ∈ akeys t
      · simp [List.mem_cons, hm, hne]
      · simp [List.mem_cons, hm, hne]

theorem akeys_aupsert_nodup {α β : Type} [DecidableEq α]
    (l : List (α × β)) (k : α) (v : β)
    (h : (akeys l).Nodup) : (akeys (aupsert l k v)).Nodup := by
  rw [akeys_aupsert]
  by_cases hm : k ∈ akeys l
  · simpa [hm] using h
  · rw [if_neg hm]
    refine List.Nodup.append h (List.nodup_singleton k) ?_
    intro x hx hx'
    rw [List.mem_singleton] at hx'
    exact hm (hx' ▸ hx)

theorem filter_key_nil {α β : Type} [DecidableEq α]
    (l : List (α × β)) (k : α) (h : k ∉ akeys l) :
    (l.filter fun p => decide (p.1 = k)) = [] := by
  induction l with
  | nil => simp
  | cons q t ih =>
    obtain ⟨k', v'⟩ := q
    rw [akeys_cons, List.mem_cons] at h
    push_neg at h
    have h1 : ¬k' = k := fun hh => h.1 hh.symm
    simp [List.filter_cons, h1, ih h.2]

theorem filter_key_singleton {α β : Type} [DecidableEq α]
    (l : List (α × β)) (k : α) (v : β)
    (hn : (akeys l).Nodup) (hl : alookup l k = some v) :
    (l.filter fun p => decide (p.1 = k)).length = 1 := by
  induction l with
  | nil => simp [alookup] at hl
  | cons q t ih =>
    obtain ⟨k', v'⟩ := q
    rw [akeys_cons, List.nodup_cons] at hn
    by_cases hk : k' = k
    · subst hk
      simp [List.filter_cons, filter_key_nil t k' hn.1]
    · rw [alookup, if_neg hk] at hl
      simpa [List.filter_cons, hk] using ih hn.2 hl

theorem aupsert_fresh_append {α β : Type} [DecidableEq α]
    (l : List (α × β)) (k : α) (v : β) (h : k ∉ akeys l) :
    aupsert l k v = l ++ [(k, v)] := by
  induction l with
  | nil => simp [aupsert]
  | cons q t ih =>
    obtain ⟨k', v'⟩ := q
    rw [akeys_cons, List.mem_cons] at h
    push_neg at h
    have h1 : ¬k' = k := fun hh => h.1 hh.symm
    rw [aupsert, if_neg h1, ih h.2]
    simp

/-- A demonstration message owned by cloud mailbox 5. -/
def msgDemo : Msg := ⟨5, 77⟩

/-- A concrete configuration: local mailbox 0, cloud mailbox 5 holding
one message under change key 1, every comparison reporting a
difference, no mailbox dirty, one provider session 8. -/
def cfgDemo : Config :=
  { local_mboxes := [0]
    cloud_mboxes := [5]
    messages := fun c => if c = 5 then [(1, msgDemo)] else []
    need_update := fun _ => false
    same_messages := fun _ _ => false
    same_messages_tuple := fun _ _ => false
    route := fun _ => some 0
    domains := [8] }

/-- The environment in which no external call fails. -/
def envNone : Env := ⟨none, none, none⟩

/-- A previous iteration's routing result for `cfgDemo`. -/
def mDemo : MBoxDict := [(0, [(1, msgDemo)])]

/-- Classifier for `force_content` events. -/
def isForceEvent : Event → Bool
  | .forceContent _ _ => true
  | _ => false

/-- Classifier for `merge_content` events. -/
def isMergeEvent : Event → Bool
  | .mergeContent _ _ => true
  | _ => false

/-- The per-cycle ordering asserted by the claim: every `force_content`
call precedes every `merge_content` call, i.e. no force event occurs at
or after the first merge event of the trace. -/
def forcesPrecedeMerges (t : List Event) : Bool :=
  ((t.dropWhile fun e => !isMergeEvent e).filter isForceEvent).isEmpty

theorem retryOr_ne_wait (evs : List Event) (msgs : Option MBoxDict)
    (e : PyExc) : (retryOr evs msgs e).2.2 ≠ Outcome.wait := by
  unfold retryOr
  split <;> simp

theorem runCycle_wait_char (cfg : Config) (msgs : Option MBoxDict)
    (env : Env) (h : (runCycle cfg msgs env).2.2 = Outcome.wait) :
    ∃ mEvs fEvs newMsgs,
      mergeStep cfg msgs = .ok mEvs ∧
      force_local_to_cloud cfg = .ok (fEvs, newMsgs) ∧
      runCycle cfg msgs env =
        (refreshEvents cfg ++ mEvs ++ fEvs
           ++ [Event.waitChanged, Event.cleanupMsgs],
         some newMsgs, Outcome.wait) := by
  unfold runCycle at h
  split at h
  · exact absurd h (retryOr_ne_wait _ _ _)
  rename_i hg1
  split at h
  · exact absurd h (retryOr_ne_wait _ _ _)
  rename_i mEvs hm
  split at h
  · exact absurd h (retryOr_ne_wait _ _ _)
  rename_i hg2
  split at h
  · exact absurd h (retryOr_ne_wait _ _ _)
  rename_i fEvs newMsgs hf
  split at h
  · exact absurd h (retryOr_ne_wait _ _ _)
  rename_i hg3
  refine ⟨mEvs, fEvs, newMsgs, hm, hf, ?_⟩
  unfold runCycle
  simp only [hg1, hm, hg2, hf, hg3]

theorem mem_refreshEvents {cfg : Config} {e : Event}
    (h : e ∈ refreshEvents cfg) : ∃ mb, e = Event.refresh mb := by
  rcases List.mem_map.mp h with ⟨mb, _, rfl⟩
  exact ⟨mb, rfl⟩

theorem mem_mergeEvents {cfg : Config} {byCloud : CloudDict} {e : Event}
    (h : e ∈ mergeEvents cfg byCloud) :
    ∃ mb t, e = Event.mergeContent mb t := by
  rcases List.mem_filterMap.mp h with ⟨p, _, hp⟩
  by_cases hc : cfg.same_messages_tuple p.1 p.2
  · simp [hc] at hp
  · simp [hc] at hp
    exact ⟨p.1, p.2, hp.symm⟩

theorem mem_forceEvents {cfg : Config} {msgs : MBoxDict} {e : Event}
    (h : e ∈ forceEvents cfg msgs) :
    ∃ mb s, e = Event.forceContent mb s := by
  rcases List.mem_filterMap.mp h with ⟨p, _, hp⟩
  by_cases hc : cfg.same_messages p.1 p.2
  · simp [hc] at hp
  · simp [hc] at hp
    exact ⟨p.1, p.2, hp.symm⟩

theorem mergeStep_ok_shape {cfg : Config} {msgs : Option MBoxDict}
    {mEvs : List Event} (h : mergeStep cfg msgs = .ok mEvs) :
    mEvs = [] ∨ ∃ byCloud, mEvs = mergeEvents cfg byCloud := by
  cases msgs with
  | none =>
    simp [mergeStep] at h
    exact Or.inl h
  | some m =>
    simp [mergeStep, update_cloud_from_local] at h
    cases hg : groupByCloud cfg m with
    | error pe => rw [hg] at h; simp at h
    | ok byCloud =>
      rw [hg] at h
      simp at h
      exact Or.inr ⟨byCloud, h.symm⟩

theorem force_ok_shape {cfg : Config} {fEvs : List Event} {r : MBoxDict}
    (h : force_local_to_cloud cfg = .ok (fEvs, r)) :
    routeMsgs cfg = .ok r ∧ fEvs = forceEvents cfg r := by
  unfold force_local_to_cloud at h
  cases hg : routeMsgs cfg with
  | error pe => rw [hg] at h; simp at h
  | ok msgs =>
    rw [hg] at h
    simp at h
    obtain ⟨h1, h2⟩ := h
    subst h2
    exact ⟨rfl, h1.symm⟩

/-- C1 counterexample: in a reconciliation cycle of the concrete
configuration `cfgDemo` in which both a merge and a force call occur
(`mDemo` being the previous cycle's routing result), the loop body
calls `merge_content` (inside `update_cloud_from_local`) strictly
before `force_content` (inside `force_local_to_cloud`), so the claimed
ordering — every `force_content` call of the cycle precedes every
`merge_content` call of the cycle — is false on this trace. -/
theorem claim_C1_counterexample :
    (runCycle cfgDemo (some mDemo) envNone).1
      = [Event.mergeContent 5 [(1, (none, msgDemo))],
         Event.forceContent 0 [(1, msgDemo)],
         Event.waitChanged, Event.cleanupMsgs]
    ∧ forcesPrecedeMerges (runCycle cfgDemo (some mDemo) envNone).1
        = false :=
  ⟨by decide, by decide⟩

/-- C1 (amended): within one reconciliation cycle that reaches the
wait, the refresh step fully completes before the upward merge
(`update_cloud_from_local`, which consumes the previous cycle's routing
result) begins; the upward merge fully completes before routing
(`force_local_to_cloud`) begins; and the wait on the
change-notification signal begins only after both.  In particular every
`merge_content` call of the cycle precedes every `force_content` call
of that cycle — the reverse of the claimed order. -/
theorem claim_C1_cycle_phase_order (cfg : Config) (msgs : Option MBoxDict)
    (env : Env) (h : (runCycle cfg msgs env).2.2 = Outcome.wait) :
    ∃ M F, (runCycle cfg msgs env).1
        = refreshEvents cfg ++ M ++ F
            ++ [Event.waitChanged, Event.cleanupMsgs]
      ∧ (∀ e ∈ M, ∃ mb t, e = Event.mergeContent mb t)
      ∧ (∀ e ∈ F, ∃ mb s, e = Event.forceContent mb s) := by
  obtain ⟨mEvs, fEvs, newMsgs, hm, hf, heq⟩ := runCycle_wait_char cfg msgs env h
  refine ⟨mEvs, fEvs, ?_, ?_, ?_⟩
  · rw [heq]
  · intro e he
    rcases mergeStep_ok_shape hm with h1 | ⟨byCloud, h1⟩
    · subst h1
      simp at he
    · subst h1
      exact mem_mergeEvents he
  · intro e he
    obtain ⟨hr, h1⟩ := force_ok_shape hf
    subst h1
    exact mem_forceEvents he

/-- Witness: the amended C1 applied to a concrete successful cycle of
`cfgDemo`. -/
theorem claim_C1_cycle_phase_order_witness :
    (runCycle cfgDemo (some mDemo) envNone).2.2 = Outcome.wait
    ∧ ∃ M F, (runCycle cfgDemo (some mDemo) envNone).1
        = refreshEvents cfgDemo ++ M ++ F
            ++ [Event.waitChanged, Event.cleanupMsgs]
      ∧ (∀ e ∈ M, ∃ mb t, e = Event.mergeContent mb t)
      ∧ (∀ e ∈ F, ∃ mb s, e = Event.forceContent mb s) :=
  ⟨by decide,
   claim_C1_cycle_phase_order cfgDemo (some mDemo) envNone (by decide)⟩

/-- `cfgDemo` with every mailbox marked dirty, so the refresh gather
actually makes calls. -/
def cfgDirty : Config :=
  { cfgDemo with need_update := fun _ => true }

/-- C2 counterexample: `RuntimeError` is outside the claim's enumerated
transient set (connection failures, request timeouts, generic I/O
errors, file-not-found), yet the `except` clause of main.py catches it:
a `RuntimeError` raised during the refresh step is logged, followed by
a sleep of 10, and the cycle restarts (`Outcome.retry`) instead of
terminating the loop. -/
theorem claim_C2_counterexample :
    transient_caught PyExc.runtimeError = true
    ∧ runCycle cfgDirty none ⟨some PyExc.runtimeError, none, none⟩
        = ([Event.refresh 0, Event.refresh 5,
            Event.logRetry, Event.sleepSecs 10],
           none, Outcome.retry) :=
  ⟨rfl, rfl⟩

/-- Unfolding equation of `runCycles` at a cons cell. -/
theorem runCycles_cons (cfg : Config) (msgs : Option MBoxDict)
    (env : Env) (rest : List Env) :
    runCycles cfg msgs (env :: rest)
      = match runCycle cfg msgs env with
        | (evs, _, .fatal e) => (evs, some e)
        | (evs, msgs', _) =>
          (evs ++ (runCycles cfg msgs' rest).1,
           (runCycles cfg msgs' rest).2) := by
  rfl

/-- C2 (amended): exactly `FileNotFoundError`, `asyncio.TimeoutError`,
`aiohttp ClientError`, `IOError` and additionally `RuntimeError` are
caught by the retry handler; a caught exception is logged, followed by
a fixed sleep of 10 time units and a restart of the cycle from the
refresh step with `msgs` unchanged; an exception of any other kind is
not caught and terminates the loop. -/
theorem claim_C2_transient_retry (cfg : Config) (msgs : Option MBoxDict)
    (e : PyExc) (hr : refreshEvents cfg ≠ []) :
    (transient_caught e = true ↔
        (e = PyExc.fileNotFoundError ∨ e = PyExc.timeoutError
          ∨ e = PyExc.clientError ∨ e = PyExc.ioError
          ∨ e = PyExc.runtimeError))
    ∧ (transient_caught e = true →
        runCycle cfg msgs ⟨some e, none, none⟩
          = (refreshEvents cfg ++ [Event.logRetry, Event.sleepSecs 10],
             msgs, Outcome.retry))
    ∧ (transient_caught e = true → ∀ rest,
        runCycles cfg msgs (⟨some e, none, none⟩ :: rest)
          = ((refreshEvents cfg ++ [Event.logRetry, Event.sleepSecs 10])
               ++ (runCycles cfg msgs rest).1,
             (runCycles cfg msgs rest).2))
    ∧ (transient_caught e = false →
        runCycle cfg msgs ⟨some e, none, none⟩
          = (refreshEvents cfg, msgs, Outcome.fatal e)
        ∧ ∀ rest, runCycles cfg msgs (⟨some e, none, none⟩ :: rest)
            = (refreshEvents cfg, some e)) := by
  have hguard : guardExc (refreshEvents cfg) (some e) = some e := by
    unfold guardExc
    cases hrr : refreshEvents cfg with
    | nil => exact absurd hrr hr
    | cons a t => rfl
  have hcycle : runCycle cfg msgs ⟨some e, none, none⟩
      = retryOr (refreshEvents cfg) msgs e := by
    unfold runCycle
    rw [show Env.refreshExc ⟨some e, none, none⟩ = some e from rfl, hguard]
  refine ⟨?_, ?_, ?_, ?_⟩
  · cases e <;> simp [transient_caught]
  · intro ht
    rw [hcycle]
    unfold retryOr
    rw [ht]
    simp
  · intro ht rest
    rw [runCycles_cons, hcycle]
    unfold retryOr
    rw [ht]
    simp
  · intro ht
    constructor
    · rw [hcycle]
      unfold retryOr
      rw [ht]
      simp
    · intro rest
      rw [runCycles_cons, hcycle]
      unfold retryOr
      rw [ht]
      simp

/-- Witness: the amended C2 at the concrete configuration `cfgDirty`
and the uncaught exception kind `PyExc.other 0`. -/
theorem claim_C2_transient_retry_witness :
    refreshEvents cfgDirty ≠ []
    ∧ ((transient_caught (PyExc.other 0) = true ↔
        (PyExc.other 0 = PyExc.fileNotFoundError
          ∨ PyExc.other 0 = PyExc.timeoutError
          ∨ PyExc.other 0 = PyExc.clientError
          ∨ PyExc.other 0 = PyExc.ioError
          ∨ PyExc.other 0 = PyExc.runtimeError))
      ∧ (transient_caught (PyExc.other 0) = true →
          runCycle cfgDirty none ⟨some (PyExc.other 0), none, none⟩
            = (refreshEvents cfgDirty
                 ++ [Event.logRetry, Event.sleepSecs 10],
               none, Outcome.retry))
      ∧ (transient_caught (PyExc.other 0) = true → ∀ rest,
          runCycles cfgDirty none (⟨some (PyExc.other 0), none, none⟩ :: rest)
            = ((refreshEvents cfgDirty
                  ++ [Event.logRetry, Event.sleepSecs 10])
                 ++ (runCycles cfgDirty none rest).1,
               (runCycles cfgDirty none rest).2))
      ∧ (transient_caught (PyExc.other 0) = false →
          runCycle cfgDirty none ⟨some (PyExc.other 0), none, none⟩
            = (refreshEvents cfgDirty, none, Outcome.fatal (PyExc.other 0))
          ∧ ∀ rest,
              runCycles cfgDirty none
                  (⟨some (PyExc.other 0), none, none⟩ :: rest)
                = (refreshEvents cfgDirty, some (PyExc.other 0)))) :=
  ⟨by decide,
   claim_C2_transient_retry cfgDirty none (PyExc.other 0) (by decide)⟩

/-- C5: whenever `synchronize_mail` exits — fatal exception inside the
reconciliation loop, failure during broker (`web_app.go`) or mailbox
setup, or the loop being cut off for any other reason — the `finally`
teardown runs: the trace ends with `domain.close()` for every entry of
`cfg.domains` followed by closing the broker's HTTP listener
(`cfg.web_app.close()`). -/
theorem claim_C5_teardown_always (cfg : Config) (phase : StartPhase)
    (cycles : List Env) :
    (synchronize_mail cfg phase cycles).1
      = (syncBody cfg phase cycles).1
          ++ (cfg.domains.map Event.closeDomain ++ [Event.closeWebApp])
    ∧ (∀ d ∈ cfg.domains,
        Event.closeDomain d ∈ (synchronize_mail cfg phase cycles).1)
    ∧ Event.closeWebApp ∈ (synchronize_mail cfg phase cycles).1 := by
  refine ⟨rfl, ?_, ?_⟩
  · intro d hd
    have hm : Event.closeDomain d ∈ teardown cfg := by
      unfold teardown
      exact List.mem_append_left _ (List.mem_map_of_mem _ hd)
    unfold synchronize_mail
    exact List.mem_append_right _ hm
  · have hm : Event.closeWebApp ∈ teardown cfg := by
      unfold teardown
      exact List.mem_append_right _ (List.mem_singleton_self _)
    unfold synchronize_mail
    exact List.mem_append_right _ hm

/-- Witness: C5 applied to the concrete configuration `cfgDemo`
(one provider session, domain 8) exiting through a failed
`web_app.go()`. -/
theorem claim_C5_teardown_always_witness :
    (synchronize_mail cfgDemo (StartPhase.goFail PyExc.keyError) []).1
      = (syncBody cfgDemo (StartPhase.goFail PyExc.keyError) []).1
          ++ (cfgDemo.domains.map Event.closeDomain ++ [Event.closeWebApp])
    ∧ (∀ d ∈ cfgDemo.domains,
        Event.closeDomain d
          ∈ (synchronize_mail cfgDemo (StartPhase.goFail PyExc.keyError) []).1)
    ∧ Event.closeWebApp
        ∈ (synchronize_mail cfgDemo (StartPhase.goFail PyExc.keyError) []).1 :=
  claim_C5_teardown_always cfgDemo (StartPhase.goFail PyExc.keyError) []

/-- C7: a callback request whose `state` matches a pending entry
removes that entry from `auth_redirs` and appends the request's full
query set to that entry's resolution channel; a request whose `state`
matches no pending entry leaves the broker state unchanged and raises
no error (the browser just gets a redirect); in both cases the response
is a redirect to a still-pending entry's target URL when any remain,
and to the root URL otherwise. -/
theorem claim_C7_callback_behaviour (ws : WS) (q : Query) (s : String)
    (hq : q.state = some s) :
    (∀ u qid, alookup ws.auth_redirs s = some (u, qid) →
      (oauth2_msal ws q).1.auth_redirs = aerase ws.auth_redirs s
      ∧ (oauth2_msal ws q).1.delivered = ws.delivered ++ [(qid, q)])
    ∧ (alookup ws.auth_redirs s = none → (oauth2_msal ws q).1 = ws)
    ∧ (∃ t, (oauth2_msal ws q).2 = HttpResult.found t
        ∧ ((oauth2_msal ws q).1.auth_redirs = [] → t = webServerRootURL)
        ∧ ((oauth2_msal ws q).1.auth_redirs ≠ [] →
            ∃ p ∈ (oauth2_msal ws q).1.auth_redirs, t = p.2.1)) := by
  have he : oauth2_msal ws q
      = (msalState ws s q, .found (redirTarget (msalState ws s q))) := by
    unfold oauth2_msal
    rw [hq]
  refine ⟨?_, ?_, ?_⟩
  · intro u qid hl
    rw [he]
    unfold msalState
    rw [hl]
    exact ⟨rfl, rfl⟩
  · intro hl
    rw [he]
    unfold msalState
    rw [hl]
  · refine ⟨redirTarget (msalState ws s q), by rw [he], ?_, ?_⟩
    · intro hnil
      simp only [he] at hnil
      unfold redirTarget
      rw [hnil]
    · intro hnil
      simp only [he] at hnil ⊢
      cases hr : (msalState ws s q).auth_redirs with
      | nil => exact absurd hr hnil
      | cons p rest =>
        obtain ⟨k, u', qid'⟩ := p
        refine ⟨(k, u', qid'), ?_, ?_⟩
        · exact List.mem_cons_self _ _
        · unfold redirTarget
          rw [hr]

/-- Witness: C7 at a concrete two-entry broker state, resolving the
second entry. -/
theorem claim_C7_callback_behaviour_witness :
    (⟨some "s2", 42⟩ : Query).state = some "s2"
    ∧ ((∀ u qid,
        alookup (⟨[("s1", ("u1", 1)), ("s2", ("u2", 2))], []⟩ : WS).auth_redirs
            "s2" = some (u, qid) →
        (oauth2_msal ⟨[("s1", ("u1", 1)), ("s2", ("u2", 2))], []⟩
            ⟨some "s2", 42⟩).1.auth_redirs
          = aerase (⟨[("s1", ("u1", 1)), ("s2", ("u2", 2))], []⟩ : WS).auth_redirs
              "s2"
        ∧ (oauth2_msal ⟨[("s1", ("u1", 1)), ("s2", ("u2", 2))], []⟩
            ⟨some "s2", 42⟩).1.delivered
          = (⟨[("s1", ("u1", 1)), ("s2", ("u2", 2))], []⟩ : WS).delivered
              ++ [(qid, ⟨some "s2", 42⟩)])
      ∧ (alookup (⟨[("s1", ("u1", 1)), ("s2", ("u2", 2))], []⟩ : WS).auth_redirs
            "s2" = none →
          (oauth2_msal ⟨[("s1", ("u1", 1)), ("s2", ("u2", 2))], []⟩
              ⟨some "s2", 42⟩).1
            = ⟨[("s1", ("u1", 1)), ("s2", ("u2", 2))], []⟩)
      ∧ (∃ t, (oauth2_msal ⟨[("s1", ("u1", 1)), ("s2", ("u2", 2))], []⟩
              ⟨some "s2", 42⟩).2 = HttpResult.found t
          ∧ ((oauth2_msal ⟨[("s1", ("u1", 1)), ("s2", ("u2", 2))], []⟩
                ⟨some "s2", 42⟩).1.auth_redirs = [] → t = webServerRootURL)
          ∧ ((oauth2_msal ⟨[("s1", ("u1", 1)), ("s2", ("u2", 2))], []⟩
                ⟨some "s2", 42⟩).1.auth_redirs ≠ [] →
              ∃ p ∈ (oauth2_msal ⟨[("s1", ("u1", 1)), ("s2", ("u2", 2))], []⟩
                ⟨some "s2", 42⟩).1.auth_redirs, t = p.2.1))) :=
  ⟨rfl, claim_C7_callback_behaviour
    ⟨[("s1", ("u1", 1)), ("s2", ("u2", 2))], []⟩ ⟨some "s2", 42⟩ "s2" rfl⟩

/-- C10: a callback request with no `state` query parameter at all hits
the uncaught `KeyError` from `request.query["state"]` (evaluated before
the `try` block), leaving the broker state unchanged and producing no
redirect; only a request whose `state` is present but matches no
pending entry takes the silent-ignore path. -/
theorem claim_C10_missing_state (ws : WS) (q : Query) :
    (q.state = none →
      oauth2_msal ws q = (ws, HttpResult.keyError))
    ∧ (∀ s, q.state = some s → alookup ws.auth_redirs s = none →
        (oauth2_msal ws q).1 = ws
        ∧ (oauth2_msal ws q).2 ≠ HttpResult.keyError) := by
  constructor
  · intro hn
    unfold oauth2_msal
    rw [hn]
  · intro s hs hl
    have he : oauth2_msal ws q
        = (msalState ws s q, .found (redirTarget (msalState ws s q))) := by
      unfold oauth2_msal
      rw [hs]
    rw [he]
    unfold msalState
    rw [hl]
    exact ⟨rfl, by simp⟩

/-- Witness: C10 at a concrete broker state and a callback carrying no
`state` parameter. -/
theorem claim_C10_missing_state_witness :
    ((⟨none, 7⟩ : Query).state = none →
      oauth2_msal ⟨[("s1", ("u1", 1))], []⟩ ⟨none, 7⟩
        = (⟨[("s1", ("u1", 1))], []⟩, HttpResult.keyError))
    ∧ (∀ s, (⟨none, 7⟩ : Query).state = some s →
        alookup (⟨[("s1", ("u1", 1))], []⟩ : WS).auth_redirs s = none →
        (oauth2_msal ⟨[("s1", ("u1", 1))], []⟩ ⟨none, 7⟩).1
          = ⟨[("s1", ("u1", 1))], []⟩
        ∧ (oauth2_msal ⟨[("s1", ("u1", 1))], []⟩ ⟨none, 7⟩).2
            ≠ HttpResult.keyError) :=
  claim_C10_missing_state ⟨[("s1", ("u1", 1))], []⟩ ⟨none, 7⟩

theorem akeys_aerase_nodup {α β : Type} [DecidableEq α]
    (l : List (α × β)) (k : α) (h : (akeys l).Nodup) :
    (akeys (aerase l k)).Nodup :=
  List.Nodup.sublist (List.Sublist.map Prod.fst (aerase_sublist l k)) h

theorem mem_aerase {α β : Type} [DecidableEq α]
    {l : List (α × β)} {k : α} {p : α × β}
    (h : p ∈ aerase l k) : p ∈ l :=
  (aerase_sublist l k).subset h

/-- One broker operation preserves key-uniqueness of the pending
mapping. -/
theorem stepOp_nodup (ws : WS) (op : Op)
    (h : (akeys ws.auth_redirs).Nodup) :
    (akeys (stepOp ws op).auth_redirs).Nodup := by
  cases op with
  | redir u s qid => exact akeys_aupsert_nodup _ _ _ h
  | callback q =>
    show (akeys (oauth2_msal ws q).1.auth_redirs).Nodup
    unfold oauth2_msal
    cases hq : q.state with
    | none => exact h
    | some s =>
      show (akeys (msalState ws s q).auth_redirs).Nodup
      unfold msalState
      cases hl : alookup ws.auth_redirs s with
      | none => exact h
      | some p =>
        obtain ⟨u, qid⟩ := p
        exact akeys_aerase_nodup _ _ h

theorem runOps_nodup (ws : WS) (ops : List Op)
    (h : (akeys ws.auth_redirs).Nodup) :
    (akeys (runOps ws ops).auth_redirs).Nodup := by
  induction ops generalizing ws with
  | nil => exact h
  | cons op rest ih => exact ih _ (stepOp_nodup ws op h)

/-- Processing callbacks never touches a queue whose identifier is not
referenced by any pending entry: it neither appears in a pending entry
later nor receives a delivery. -/
theorem processCbs_fresh_qid (cbs : List Query) (ws : WS) (qid : Nat)
    (h1 : ∀ p ∈ ws.auth_redirs, p.2.2 ≠ qid)
    (h2 : ∀ q : Query, (qid, q) ∉ ws.delivered) :
    ∀ q : Query, (qid, q) ∉ (processCbs ws cbs).delivered := by
  induction cbs generalizing ws with
  | nil => exact h2
  | cons c rest ih =>
    show ∀ q : Query, (qid, q) ∉ (processCbs (oauth2_msal ws c).1 rest).delivered
    cases hc : c.state with
    | none =>
      have hgoal : (oauth2_msal ws c).1 = ws := by
        unfold oauth2_msal
        rw [hc]
      rw [hgoal]
      exact ih ws h1 h2
    | some s =>
      have hgoal : (oauth2_msal ws c).1 = msalState ws s c := by
        unfold oauth2_msal
        rw [hc]
      rw [hgoal]
      unfold msalState
      cases hl : alookup ws.auth_redirs s with
      | none => exact ih ws h1 h2
      | some p =>
        obtain ⟨u, qid'⟩ := p
        apply ih
        · intro p hp
          exact h1 p (mem_aerase hp)
        · intro q hq
          rcases List.mem_append.mp hq with hq | hq
          · exact h2 q hq
          · rw [List.mem_singleton] at hq
            have h3 : qid' ≠ qid := h1 (s, (u, qid')) (alookup_mem hl)
            exact h3 (Prod.mk.injEq _ _ _ _ ▸ hq).1.symm

/-- C8: the pending-auth mapping holds at most one entry per state
token at all times (key-uniqueness is preserved by every sequence of
broker operations from the empty broker); a second `auth_redir` call
with the same state token replaces the prior (url, queue) pair, so the
mapping holds exactly the second entry, a subsequent callback for that
token resolves only the second caller's queue, and the first caller's
queue is never delivered to by any subsequent callbacks. -/
theorem claim_C8_overwrite_same_state
    (ops : List Op) (u1 u2 s : String) (q1 q2 : Nat) (hq : q1 ≠ q2)
    (cbs : List Query) (q : Query) (hqs : q.state = some s) :
    (akeys (runOps emptyWS ops).auth_redirs).Nodup
    ∧ (auth_redir (auth_redir emptyWS u1 s q1) u2 s q2).auth_redirs
        = [(s, (u2, q2))]
    ∧ (∀ qq : Query, (q1, qq) ∉
        (processCbs (auth_redir (auth_redir emptyWS u1 s q1) u2 s q2)
          cbs).delivered)
    ∧ (oauth2_msal (auth_redir (auth_redir emptyWS u1 s q1) u2 s q2) q).1
        = ⟨[], [(q2, q)]⟩ := by
  have hws : (auth_redir (auth_redir emptyWS u1 s q1) u2 s q2)
      = ⟨[(s, (u2, q2))], []⟩ := by
    simp [auth_redir, aupsert, emptyWS]
  refine ⟨?_, ?_, ?_, ?_⟩
  · exact runOps_nodup emptyWS ops (by simp [emptyWS, akeys])
  · rw [hws]
  · rw [hws]
    apply processCbs_fresh_qid
    · intro p hp
      rw [List.mem_singleton] at hp
      subst hp
      exact fun hc => hq hc.symm
    · intro qq hqq
      simp at hqq
  · rw [hws]
    unfold oauth2_msal
    rw [hqs]
    show msalState ⟨[(s, (u2, q2))], []⟩ s q = _
    unfold msalState
    simp [alookup, aerase]

/-- Witness: C8 at concrete tokens and queues. -/
theorem claim_C8_overwrite_same_state_witness :
    (1 : Nat) ≠ 2
    ∧ (⟨some "s", 9⟩ : Query).state = some "s"
    ∧ ((akeys (runOps emptyWS []).auth_redirs).Nodup
      ∧ (auth_redir (auth_redir emptyWS "u1" "s" 1) "u2" "s" 2).auth_redirs
          = [("s", ("u2", 2))]
      ∧ (∀ qq : Query, (1, qq) ∉
          (processCbs (auth_redir (auth_redir emptyWS "u1" "s" 1) "u2" "s" 2)
            [⟨some "s", 9⟩]).delivered)
      ∧ (oauth2_msal (auth_redir (auth_redir emptyWS "u1" "s" 1) "u2" "s" 2)
            ⟨some "s", 9⟩).1
          = ⟨[], [(2, ⟨some "s", 9⟩)]⟩) :=
  ⟨by decide, rfl,
   claim_C8_overwrite_same_state [] "u1" "u2" "s" 1 2 (by decide)
     [⟨some "s", 9⟩] ⟨some "s", 9⟩ rfl⟩

/-- Registering a batch of fresh, pairwise-distinct state tokens
appends the batch to the pending mapping and delivers nothing. -/
theorem regAll_auth_redirs (reg : List (String × (String × Nat))) (ws : WS)
    (hdisj : ∀ p ∈ reg, p.1 ∉ akeys ws.auth_redirs)
    (hnd : (akeys reg).Nodup) :
    (regAll ws reg).auth_redirs = ws.auth_redirs ++ reg
    ∧ (regAll ws reg).delivered = ws.delivered := by
  induction reg generalizing ws with
  | nil => simp [regAll]
  | cons p rest ih =>
    obtain ⟨s, u, qid⟩ := p
    rw [akeys_cons, List.nodup_cons] at hnd
    have hfresh : s ∉ akeys ws.auth_redirs :=
      hdisj (s, u, qid) (List.mem_cons_self _ _)
    have h1 : (auth_redir ws u s qid).auth_redirs
        = ws.auth_redirs ++ [(s, (u, qid))] := by
      show aupsert ws.auth_redirs s (u, qid) = _
      exact aupsert_fresh_append _ _ _ hfresh
    have hdisj' : ∀ p ∈ rest,
        p.1 ∉ akeys (auth_redir ws u s qid).auth_redirs := by
      intro p hp hmem
      rw [h1] at hmem
      unfold akeys at hmem
      rw [List.map_append] at hmem
      rcases List.mem_append.mp hmem with hm | hm
      · exact hdisj p (List.mem_cons_of_mem _ hp) hm
      · simp at hm
        exact hnd.1 (hm ▸ List.mem_map_of_mem Prod.fst hp)
    obtain ⟨ha, hd⟩ := ih (auth_redir ws u s qid) hdisj' hnd.2
    constructor
    · rw [show regAll ws ((s, u, qid) :: rest)
          = regAll (auth_redir ws u s qid) rest from rfl, ha, h1]
      simp
    · exact hd

/-- Deliveries are never retracted: whatever is in `delivered` stays
there through any further callbacks. -/
theorem processCbs_delivered_mono (cbs : List Query) (ws : WS)
    {x : Nat × Query} (h : x ∈ ws.delivered) :
    x ∈ (processCbs ws cbs).delivered := by
  induction cbs generalizing ws with
  | nil => exact h
  | cons c rest ih =>
    apply ih
    cases hc : c.state with
    | none =>
      have he : (oauth2_msal ws c).1 = ws := by
        unfold oauth2_msal
        rw [hc]
      rw [he]
      exact h
    | some s =>
      have he : (oauth2_msal ws c).1 = msalState ws s c := by
        unfold oauth2_msal
        rw [hc]
      rw [he]
      unfold msalState
      cases hl : alookup ws.auth_redirs s with
      | none => exact h
      | some p =>
        obtain ⟨u, qid⟩ := p
        exact List.mem_append_left _ h

/-- If token `s` is pending with queue `qid`, and exactly one callback
in the batch carries `s`, then that callback's full query set is
delivered to `qid`. -/
theorem processCbs_delivers (cbs : List Query) (ws : WS)
    (s u : String) (qid : Nat) (q0 : Query)
    (hl : alookup ws.auth_redirs s = some (u, qid))
    (hq0 : q0.state = some s)
    (hmem : q0 ∈ cbs)
    (hnd : (cbs.filterMap Query.state).Nodup) :
    (qid, q0) ∈ (processCbs ws cbs).delivered := by
  induction cbs generalizing ws with
  | nil => simp at hmem
  | cons c rest ih =>
    show (qid, q0) ∈ (processCbs (oauth2_msal ws c).1 rest).delivered
    by_cases hcs : c.state = some s
    · have hceq : c = q0 := by
        rcases List.mem_cons.mp hmem with h1 | h1
        · exact h1.symm
        · exfalso
          have hsrest : s ∈ rest.filterMap Query.state :=
            List.mem_filterMap.mpr ⟨q0, h1, hq0⟩
          rw [List.filterMap_cons_some hcs] at hnd
          rw [List.nodup_cons] at hnd
          exact hnd.1 hsrest
      subst hceq
      have he : (oauth2_msal ws c).1 = msalState ws s c := by
        unfold oauth2_msal
        rw [hcs]
      rw [he]
      apply processCbs_delivered_mono
      unfold msalState
      rw [hl]
      exact List.mem_append_right _ (List.mem_singleton_self _)
    · have hq0rest : q0 ∈ rest := by
        rcases List.mem_cons.mp hmem with h1 | h1
        · exact absurd (h1 ▸ hq0) hcs
        · exact h1
      have hndrest : (rest.filterMap Query.state).Nodup := by
        cases hc2 : c.state with
        | none => rw [List.filterMap_cons_none hc2] at hnd; exact hnd
        | some s' =>
          rw [List.filterMap_cons_some hc2] at hnd
          exact (List.nodup_cons.mp hnd).2
      cases hc2 : c.state with
      | none =>
        have he : (oauth2_msal ws c).1 = ws := by
          unfold oauth2_msal
          rw [hc2]
        rw [he]
        exact ih ws hl hq0rest hndrest
      | some s' =>
        have hne : s' ≠ s := fun hh => hcs (hh ▸ hc2)
        have he : (oauth2_msal ws c).1 = msalState ws s' c := by
          unfold oauth2_msal
          rw [hc2]
        rw [he]
        apply ih _ _ hq0rest hndrest
        unfold msalState
        cases hl2 : alookup ws.auth_redirs s' with
        | none => exact hl
        | some p =>
          obtain ⟨u', qid'⟩ := p
          show alookup (aerase ws.auth_redirs s') s = some (u, qid)
          rw [alookup_aerase_ne _ _ _ hne]
          exact hl

/-- Every delivery made while processing a callback batch goes to a
queue that was pending in the starting state, carrying a callback whose
own token named that queue's entry. -/
theorem processCbs_delivered_sources (cbs : List Query) (ws : WS) :
    ∀ x ∈ (processCbs ws cbs).delivered,
      x ∈ ws.delivered ∨
      ∃ s' u', x.2.state = some s'
        ∧ (s', (u', x.1)) ∈ ws.auth_redirs ∧ x.2 ∈ cbs := by
  induction cbs generalizing ws with
  | nil =>
    intro x hx
    exact Or.inl hx
  | cons c rest ih =>
    intro x hx
    have hx' := ih (oauth2_msal ws c).1 x hx
    cases hc : c.state with
    | none =>
      have he : (oauth2_msal ws c).1 = ws := by
        unfold oauth2_msal
        rw [hc]
      rw [he] at hx'
      rcases hx' with h1 | ⟨s', u', h1, h2, h3⟩
      · exact Or.inl h1
      · exact Or.inr ⟨s', u', h1, h2, List.mem_cons_of_mem _ h3⟩
    | some s0 =>
      have he : (oauth2_msal ws c).1 = msalState ws s0 c := by
        unfold oauth2_msal
        rw [hc]
      rw [he] at hx'
      unfold msalState at hx'
      cases hl : alookup ws.auth_redirs s0 with
      | none =>
        rw [hl] at hx'
        rcases hx' with h1 | ⟨s', u', h1, h2, h3⟩
        · exact Or.inl h1
        · exact Or.inr ⟨s', u', h1, h2, List.mem_cons_of_mem _ h3⟩
      | some p =>
        obtain ⟨u0, qid0⟩ := p
        rw [hl] at hx'
        rcases hx' with h1 | ⟨s', u', h1, h2, h3⟩
        · rcases List.mem_append.mp h1 with h2 | h2
          · exact Or.inl h2
          · rw [List.mem_singleton] at h2
            subst h2
            exact Or.inr ⟨s0, u0, hc, alookup_mem hl,
              List.mem_cons_self _ _⟩
        · exact Or.inr ⟨s', u', h1, mem_aerase h2,
            List.mem_cons_of_mem _ h3⟩

/-- C6: given a batch of `auth_redir` registrations with
pairwise-distinct state tokens (and distinct fresh queues), delivering
at most one callback per token in any order resolves each suspended
caller with exactly the query-parameter set of the callback that
carries that caller's own state token, and no caller is ever delivered
the parameters of a callback carrying a different token: queue `qid`
registered under token `s` receives a query `q` iff `q` is one of the
callbacks and carries token `s`. -/
theorem claim_C6_auth_multiplexing
    (reg : List (String × (String × Nat))) (cbs : List Query)
    (hs : (akeys reg).Nodup)
    (hqid : (reg.map fun p => p.2.2).Nodup)
    (hcb : (cbs.filterMap Query.state).Nodup)
    (s u : String) (qid : Nat) (hmem : (s, (u, qid)) ∈ reg)
    (q : Query) :
    (qid, q) ∈ (processCbs (regAll emptyWS reg) cbs).delivered
      ↔ (q ∈ cbs ∧ q.state = some s) := by
  obtain ⟨ha, hd⟩ := regAll_auth_redirs reg emptyWS
    (by intro p hp; simp [emptyWS, akeys]) hs
  rw [show emptyWS.auth_redirs = [] from rfl, List.nil_append] at ha
  rw [show emptyWS.delivered = [] from rfl] at hd
  constructor
  · intro hdel
    rcases processCbs_delivered_sources cbs (regAll emptyWS reg)
        (qid, q) hdel with h1 | ⟨s', u', h1, h2, h3⟩
    · rw [hd] at h1
      simp at h1
    · rw [ha] at h2
      have heq : ((s', (u', qid)) : String × String × Nat)
          = (s, (u, qid)) :=
        List.inj_on_of_nodup_map hqid h2 hmem rfl
      have hss : s' = s := (Prod.mk.injEq _ _ _ _ ▸ heq).1
      exact ⟨h3, hss ▸ h1⟩
  · rintro ⟨hqc, hqs⟩
    apply processCbs_delivers cbs _ s u qid q _ hqs hqc hcb
    rw [ha]
    exact mem_alookup_of_nodup hs hmem

/-- Witness: C6 at two concrete registrations resolved out of order. -/
theorem claim_C6_auth_multiplexing_witness :
    (akeys [("s1", ("u1", 1)), ("s2", ("u2", 2))]).Nodup
    ∧ (([("s1", ("u1", 1)), ("s2", ("u2", 2))].map
        fun p => p.2.2) : List Nat).Nodup
    ∧ (([⟨some "s2", 20⟩, ⟨some "s1", 10⟩] : List Query).filterMap
        Query.state).Nodup
    ∧ ("s1", ("u1", 1)) ∈ [("s1", ("u1", 1)), ("s2", ("u2", 2))]
    ∧ ((1, (⟨some "s1", 10⟩ : Query)) ∈
        (processCbs (regAll emptyWS [("s1", ("u1", 1)), ("s2", ("u2", 2))])
          [⟨some "s2", 20⟩, ⟨some "s1", 10⟩]).delivered
      ↔ ((⟨some "s1", 10⟩ : Query) ∈
            ([⟨some "s2", 20⟩, ⟨some "s1", 10⟩] : List Query)
          ∧ (⟨some "s1", 10⟩ : Query).state = some "s1")) :=
  ⟨by decide, by decide, by decide, by decide,
   claim_C6_auth_multiplexing [("s1", ("u1", 1)), ("s2", ("u2", 2))]
     [⟨some "s2", 20⟩, ⟨some "s1", 10⟩] (by decide) (by decide) (by decide)
     "s1" "u1" 1 (by decide) ⟨some "s1", 10⟩⟩

/-- A `force_content` call appears in the force step's event list
exactly for the entries of the routing result whose `same_messages`
comparison reports a difference. -/
theorem forceContent_mem_forceEvents (cfg : Config) (msgs : MBoxDict)
    (mb : Nat) (d : Snapshot) :
    Event.forceContent mb d ∈ forceEvents cfg msgs
      ↔ ((mb, d) ∈ msgs ∧ cfg.same_messages mb d = false) := by
  unfold forceEvents
  rw [List.mem_filterMap]
  constructor
  · rintro ⟨p, hp, he⟩
    by_cases hc : cfg.same_messages p.1 p.2
    · simp [hc] at he
    · simp [hc] at he
      obtain ⟨h1, h2⟩ := he
      subst h1
      subst h2
      exact ⟨by simpa using hp, by simpa using hc⟩
  · rintro ⟨hmem, hfalse⟩
    exact ⟨(mb, d), hmem, by simp [hfalse]⟩

/-- A `merge_content` call appears in the merge step's event list
exactly for the groups whose tuple-form `same_messages` comparison
reports a difference. -/
theorem mergeContent_mem_mergeEvents (cfg : Config) (byCloud : CloudDict)
    (mb : Nat) (t : TupleSnap) :
    Event.mergeContent mb t ∈ mergeEvents cfg byCloud
      ↔ ((mb, t) ∈ byCloud ∧ cfg.same_messages_tuple mb t = false) := by
  unfold mergeEvents
  rw [List.mem_filterMap]
  constructor
  · rintro ⟨p, hp, he⟩
    by_cases hc : cfg.same_messages_tuple p.1 p.2
    · simp [hc] at he
    · simp [hc] at he
      obtain ⟨h1, h2⟩ := he
      subst h1
      subst h2
      exact ⟨by simpa using hp, by simpa using hc⟩
  · rintro ⟨hmem, hfalse⟩
    exact ⟨(mb, t), hmem, by simp [hfalse]⟩

theorem guardExc_none (evs : List Event) : guardExc evs none = none := by
  cases evs <;> rfl

/-- C4: in a cycle with no external failures whose routing and grouping
both succeed, `force_content(msgdb, target)` is invoked on a local
mailbox iff that mailbox's `same_messages(target)` comparison reports a
difference, and `merge_content(tupleSet)` is invoked on a cloud mailbox
iff its `same_messages(tupleSet, tuple_form=True)` comparison reports a
difference; a mailbox whose comparison reports equality receives no
force or merge call in that cycle. -/
theorem claim_C4_compare_before_write (cfg : Config) (m : MBoxDict)
    (r : MBoxDict) (g : CloudDict)
    (hroute : routeMsgs cfg = .ok r)
    (hgroup : groupByCloud cfg m = .ok g) :
    (∀ mb d, Event.forceContent mb d ∈ (runCycle cfg (some m) envNone).1
      ↔ ((mb, d) ∈ r ∧ cfg.same_messages mb d = false))
    ∧ (∀ mb t, Event.mergeContent mb t ∈ (runCycle cfg (some m) envNone).1
      ↔ ((mb, t) ∈ g ∧ cfg.same_messages_tuple mb t = false)) := by
  have hforce : force_local_to_cloud cfg = .ok (forceEvents cfg r, r) := by
    unfold force_local_to_cloud
    rw [hroute]
  have hmerge : mergeStep cfg (some m) = .ok (mergeEvents cfg g) := by
    show update_cloud_from_local cfg m = _
    unfold update_cloud_from_local
    rw [hgroup]
  have htrace : (runCycle cfg (some m) envNone).1
      = refreshEvents cfg ++ mergeEvents cfg g ++ forceEvents cfg r
          ++ [Event.waitChanged, Event.cleanupMsgs] := by
    unfold runCycle
    simp only [show envNone.refreshExc = none from rfl,
      show envNone.mergeExc = none from rfl,
      show envNone.forceExc = none from rfl,
      guardExc_none, hmerge, hforce]
  constructor
  · intro mb d
    rw [htrace]
    constructor
    · intro h
      rcases List.mem_append.mp h with h1 | h1
      · rcases List.mem_append.mp h1 with h2 | h2
        · rcases List.mem_append.mp h2 with h3 | h3
          · obtain ⟨mb', he⟩ := mem_refreshEvents h3
            simp at he
          · obtain ⟨mb', t', he⟩ := mem_mergeEvents h3
            simp at he
        · exact (forceContent_mem_forceEvents cfg r mb d).mp h2
      · simp at h1
    · intro hh
      refine List.mem_append.mpr (Or.inl (List.mem_append.mpr (Or.inr ?_)))
      exact (forceContent_mem_forceEvents cfg r mb d).mpr hh
  · intro mb t
    rw [htrace]
    constructor
    · intro h
      rcases List.mem_append.mp h with h1 | h1
      · rcases List.mem_append.mp h1 with h2 | h2
        · rcases List.mem_append.mp h2 with h3 | h3
          · obtain ⟨mb', he⟩ := mem_refreshEvents h3
            simp at he
          · exact (mergeContent_mem_mergeEvents cfg g mb t).mp h3
        · obtain ⟨mb', s', he⟩ := mem_forceEvents h2
          simp at he
      · simp at h1
    · intro hh
      refine List.mem_append.mpr (Or.inl (List.mem_append.mpr
        (Or.inl (List.mem_append.mpr (Or.inr ?_)))))
      exact (mergeContent_mem_mergeEvents cfg g mb t).mpr hh

/-- Witness: C4 at the concrete configuration `cfgDemo` with previous
routing result `mDemo`. -/
theorem claim_C4_compare_before_write_witness :
    routeMsgs cfgDemo = .ok [(0, [(1, msgDemo)])]
    ∧ groupByCloud cfgDemo mDemo = .ok [(5, [(1, (none, msgDemo))])]
    ∧ ((∀ mb d, Event.forceContent mb d
          ∈ (runCycle cfgDemo (some mDemo) envNone).1
        ↔ ((mb, d) ∈ [(0, [(1, msgDemo)])]
            ∧ cfgDemo.same_messages mb d = false))
      ∧ (∀ mb t, Event.mergeContent mb t
          ∈ (runCycle cfgDemo (some mDemo) envNone).1
        ↔ ((mb, t) ∈ [(5, [(1, (none, msgDemo))])]
            ∧ cfgDemo.same_messages_tuple mb t = false))) :=
  ⟨rfl, rfl,
   claim_C4_compare_before_write cfgDemo mDemo
     [(0, [(1, msgDemo)])] [(5, [(1, (none, msgDemo))])] rfl rfl⟩

theorem routeInsert_ok_keys {d d' : MBoxDict} {dest ch : Nat} {m : Msg}
    (h : routeInsert d dest ch m = .ok d') : akeys d' = akeys d := by
  unfold routeInsert at h
  cases hl : alookup d dest with
  | none =>
    rw [hl] at h
    simp at h
  | some snap =>
    rw [hl] at h
    simp at h
    subst h
    have hmem : dest ∈ akeys d := by
      by_contra hc
      rw [← alookup_eq_none_iff] at hc
      simp [hc] at hl
    rw [akeys_aupsert, if_pos hmem]

theorem routeSnap_ok_keys (cfg : Config) (s : Snapshot) :
    ∀ d d', routeSnap cfg d s = .ok d' → akeys d' = akeys d := by
  induction s with
  | nil =>
    intro d d' h
    simp [routeSnap] at h
    rw [h]
  | cons p rest ih =>
    intro d d' h
    obtain ⟨ch, m⟩ := p
    unfold routeSnap at h
    cases hr : cfg.route m with
    | none =>
      rw [hr] at h
      simp at h
    | some dest =>
      simp only [hr] at h
      cases hi : routeInsert d dest ch m with
      | error e =>
        rw [hi] at h
        simp at h
      | ok d1 =>
        rw [hi] at h
        rw [ih d1 d' h, routeInsert_ok_keys hi]

theorem routeClouds_ok_keys (cfg : Config) (cs : List Nat) :
    ∀ d d', routeClouds cfg d cs = .ok d' → akeys d' = akeys d := by
  induction cs with
  | nil =>
    intro d d' h
    simp [routeClouds] at h
    rw [h]
  | cons c rest ih =>
    intro d d' h
    unfold routeClouds at h
    cases hs : routeSnap cfg d (cfg.messages c) with
    | error e =>
      rw [hs] at h
      simp at h
    | ok d1 =>
      rw [hs] at h
      rw [ih d1 d' h, routeSnap_ok_keys cfg _ d d1 hs]

theorem alookup_foldl_aupsert_const {α β : Type} [DecidableEq α]
    (b : β) (ls : List α) (d : List (α × β)) (x : α) :
    alookup (ls.foldl (fun acc l => aupsert acc l b) d) x
      = if x ∈ ls then some b else alookup d x := by
  induction ls generalizing d with
  | nil => simp
  | cons l rest ih =>
    rw [List.foldl_cons, ih]
    by_cases hx : x ∈ rest
    · simp [hx]
    · by_cases hl : x = l
      · subst hl
        simp [hx, alookup_aupsert_self]
      · have hlx : l ≠ x := fun hh => hl hh.symm
        simp [hx, hl, alookup_aupsert_ne _ _ _ _ hlx]

theorem alookup_initTargets (ls : List Nat) (x : Nat) :
    alookup (initTargets ls) x = if x ∈ ls then some [] else none := by
  unfold initTargets
  rw [alookup_foldl_aupsert_const]
  rfl

/-- When the routing policy always answers with a mailbox present in
the target dictionary, the inner routing loop cannot fail. -/
theorem routeSnap_default_ok (cfg : Config) (l0 : Nat)
    (hroute : ∀ m, cfg.route m = some l0) (s : Snapshot) :
    ∀ d, l0 ∈ akeys d → ∃ d', routeSnap cfg d s = .ok d' := by
  induction s with
  | nil =>
    intro d _
    exact ⟨d, rfl⟩
  | cons p rest ih =>
    intro d hd
    obtain ⟨ch, m⟩ := p
    have hlv : ∃ v, alookup d l0 = some v := by
      cases hv : alookup d l0 with
      | none => exact absurd hd ((alookup_eq_none_iff d l0).mp hv)
      | some v => exact ⟨v, rfl⟩
    obtain ⟨snap, hsnap⟩ := hlv
    have hins : routeInsert d l0 ch m
        = .ok (aupsert d l0 (aupsert snap ch m)) := by
      unfold routeInsert
      rw [hsnap]
    have hd2 : l0 ∈ akeys (aupsert d l0 (aupsert snap ch m)) := by
      rw [routeInsert_ok_keys hins]
      exact hd
    obtain ⟨d', hd'⟩ := ih (aupsert d l0 (aupsert snap ch m)) hd2
    refine ⟨d', ?_⟩
    unfold routeSnap
    simp only [hroute m, hins]
    exact hd'

theorem routeClouds_default_ok (cfg : Config) (l0 : Nat)
    (hroute : ∀ m, cfg.route m = some l0) (cs : List Nat) :
    ∀ d, l0 ∈ akeys d → ∃ d', routeClouds cfg d cs = .ok d' := by
  induction cs with
  | nil =>
    intro d _
    exact ⟨d, rfl⟩
  | cons c rest ih =>
    intro d hd
    obtain ⟨d1, hd1⟩ := routeSnap_default_ok cfg l0 hroute (cfg.messages c) d hd
    have hd2 : l0 ∈ akeys d1 := by
      rw [routeSnap_ok_keys cfg _ d d1 hd1]
      exact hd
    obtain ⟨d', hd'⟩ := ih d1 hd2
    refine ⟨d', ?_⟩
    unfold routeClouds
    rw [hd1]
    exact hd'

theorem routeClouds_all_empty (cfg : Config) (cs : List Nat)
    (h : ∀ c ∈ cs, cfg.messages c = []) (d : MBoxDict) :
    routeClouds cfg d cs = .ok d := by
  induction cs with
  | nil => rfl
  | cons c rest ih =>
    unfold routeClouds
    rw [h c (List.mem_cons_self _ _)]
    exact ih fun c' hc' => h c' (List.mem_cons_of_mem _ hc')

/-- When the routing policy always raises, any non-empty cloud snapshot
makes the routing loop raise `IndexError`. -/
theorem routeClouds_error_on_nonempty (cfg : Config)
    (hnone : ∀ m, cfg.route m = none) (cs : List Nat) :
    ∀ d, (∃ c ∈ cs, cfg.messages c ≠ []) →
      routeClouds cfg d cs = .error .indexError := by
  induction cs with
  | nil =>
    intro d hc
    simp at hc
  | cons c rest ih =>
    intro d hc
    unfold routeClouds
    cases hm : cfg.messages c with
    | nil =>
      have hc' : ∃ c' ∈ rest, cfg.messages c' ≠ [] := by
        rcases hc with ⟨c', hc1, hc2⟩
        rcases List.mem_cons.mp hc1 with h1 | h1
        · subst h1
          exact absurd hm hc2
        · exact ⟨c', h1, hc2⟩
      exact ih d hc'
    | cons p srest =>
      obtain ⟨ch, m⟩ := p
      have hsnap : routeSnap cfg d ((ch, m) :: srest)
          = .error .indexError := by
        unfold routeSnap
        rw [hnone m]
      rw [hsnap]

/-- C9: the default routing policy `_direct_message` returns
`local_mboxes[0]`; when the configured local mailbox list is empty it
raises `IndexError` on every message it is asked to route, so
`force_local_to_cloud` under the default policy fails with `IndexError`
whenever some cloud snapshot is non-empty, and succeeds when the local
mailbox list is non-empty or every cloud snapshot is empty. -/
theorem claim_C9_default_route_partial (cfg : Config)
    (hroute : cfg.route = defaultRoute cfg) :
    (∀ m : Msg, cfg.route m = cfg.local_mboxes.head?)
    ∧ (cfg.local_mboxes = [] →
        (∃ c ∈ cfg.cloud_mboxes, cfg.messages c ≠ []) →
        force_local_to_cloud cfg = .error .indexError)
    ∧ (cfg.local_mboxes ≠ [] →
        ∃ evs r, force_local_to_cloud cfg = .ok (evs, r))
    ∧ ((∀ c ∈ cfg.cloud_mboxes, cfg.messages c = []) →
        ∃ evs r, force_local_to_cloud cfg = .ok (evs, r)) := by
  refine ⟨?_, ?_, ?_, ?_⟩
  · intro m
    rw [hroute]
    rfl
  · intro hl hc
    have hnone : ∀ m : Msg, cfg.route m = none := by
      intro m
      rw [hroute]
      show cfg.local_mboxes.head? = none
      rw [hl]
      rfl
    have herr : routeMsgs cfg = .error .indexError :=
      routeClouds_error_on_nonempty cfg hnone cfg.cloud_mboxes _ hc
    unfold force_local_to_cloud
    rw [herr]
  · intro hl
    cases hlm : cfg.local_mboxes with
    | nil => exact absurd hlm hl
    | cons l0 t =>
      have hsome : ∀ m : Msg, cfg.route m = some l0 := by
        intro m
        rw [hroute]
        show cfg.local_mboxes.head? = some l0
        rw [hlm]
        rfl
      have hmem : l0 ∈ akeys (initTargets cfg.local_mboxes) := by
        by_contra hcon
        rw [← alookup_eq_none_iff] at hcon
        rw [alookup_initTargets, hlm] at hcon
        simp at hcon
      obtain ⟨d', hd'⟩ :=
        routeClouds_default_ok cfg l0 hsome cfg.cloud_mboxes
          (initTargets cfg.local_mboxes) hmem
      refine ⟨forceEvents cfg d', d', ?_⟩
      unfold force_local_to_cloud routeMsgs
      rw [hd']
  · intro hempty
    have hok : routeMsgs cfg = .ok (initTargets cfg.local_mboxes) :=
      routeClouds_all_empty cfg cfg.cloud_mboxes hempty _
    refine ⟨forceEvents cfg (initTargets cfg.local_mboxes),
      initTargets cfg.local_mboxes, ?_⟩
    unfold force_local_to_cloud
    rw [hok]

/-- A configuration with no local mailboxes, one non-empty cloud
mailbox, and the default routing policy. -/
def cfgNoLocal : Config :=
  { local_mboxes := []
    cloud_mboxes := [5]
    messages := fun c => if c = 5 then [(1, msgDemo)] else []
    need_update := fun _ => false
    same_messages := fun _ _ => false
    same_messages_tuple := fun _ _ => false
    route := fun _ => none
    domains := [] }

/-- Witness: C9 at `cfgNoLocal`, where routing a non-empty cloud
snapshot with no local mailboxes raises `IndexError`. -/
theorem claim_C9_default_route_partial_witness :
    cfgNoLocal.route = defaultRoute cfgNoLocal
    ∧ ((∀ m : Msg, cfgNoLocal.route m = cfgNoLocal.local_mboxes.head?)
      ∧ (cfgNoLocal.local_mboxes = [] →
          (∃ c ∈ cfgNoLocal.cloud_mboxes, cfgNoLocal.messages c ≠ []) →
          force_local_to_cloud cfgNoLocal = .error .indexError)
      ∧ (cfgNoLocal.local_mboxes ≠ [] →
          ∃ evs r, force_local_to_cloud cfgNoLocal = .ok (evs, r))
      ∧ ((∀ c ∈ cfgNoLocal.cloud_mboxes, cfgNoLocal.messages c = []) →
          ∃ evs r, force_local_to_cloud cfgNoLocal = .ok (evs, r))) :=
  ⟨rfl, claim_C9_default_route_partial cfgNoLocal rfl⟩

theorem routeSnap_cons_none (cfg : Config) (d : MBoxDict) (ch : Nat)
    (m : Msg) (rest : Snapshot) (hr : cfg.route m = none) :
    routeSnap cfg d ((ch, m) :: rest) = .error .indexError := by
  unfold routeSnap
  rw [hr]

theorem routeSnap_cons_some (cfg : Config) (d : MBoxDict) (ch : Nat)
    (m : Msg) (rest : Snapshot) (dest : Nat)
    (hr : cfg.route m = some dest) :
    routeSnap cfg d ((ch, m) :: rest)
      = match routeInsert d dest ch m with
        | .error e => .error e
        | .ok d' => routeSnap cfg d' rest := by
  conv_lhs => simp only [routeSnap]
  rw [hr]

theorem routeClouds_cons (cfg : Config) (d : MBoxDict) (c : Nat)
    (rest : List Nat) :
    routeClouds cfg d (c :: rest)
      = match routeSnap cfg d (cfg.messages c) with
        | .error e => .error e
        | .ok d' => routeClouds cfg d' rest := rfl

theorem routeSnap_append (cfg : Config) (s1 s2 : Snapshot) (d : MBoxDict) :
    routeSnap cfg d (s1 ++ s2)
      = match routeSnap cfg d s1 with
        | .error e => .error e
        | .ok d1 => routeSnap cfg d1 s2 := by
  induction s1 generalizing d with
  | nil => rfl
  | cons p rest ih =>
    obtain ⟨ch, m⟩ := p
    rw [List.cons_append]
    cases hr : cfg.route m with
    | none =>
      rw [routeSnap_cons_none cfg d ch m (rest ++ s2) hr,
        routeSnap_cons_none cfg d ch m rest hr]
    | some dest =>
      rw [routeSnap_cons_some cfg d ch m (rest ++ s2) dest hr,
        routeSnap_cons_some cfg d ch m rest dest hr]
      cases hi : routeInsert d dest ch m with
      | error e => rfl
      | ok d1 => exact ih d1

theorem routeClouds_append (cfg : Config) (l1 l2 : List Nat) (d : MBoxDict) :
    routeClouds cfg d (l1 ++ l2)
      = match routeClouds cfg d l1 with
        | .error e => .error e
        | .ok d1 => routeClouds cfg d1 l2 := by
  induction l1 generalizing d with
  | nil => rfl
  | cons c rest ih =>
    rw [List.cons_append, routeClouds_cons cfg d c (rest ++ l2),
      routeClouds_cons cfg d c rest]
    cases hs : routeSnap cfg d (cfg.messages c) with
    | error e => rfl
    | ok d1 => exact ih d1

/-- Routing a snapshot none of whose change keys is `ch` preserves the
entry stored under `ch` in any target snapshot. -/
theorem routeSnap_preserves_entry (cfg : Config) (dest ch : Nat) (m : Msg) :
    ∀ (s : Snapshot), ch ∉ akeys s →
    ∀ d d', routeSnap cfg d s = .ok d' →
      (∃ snap, alookup d dest = some snap ∧ alookup snap ch = some m) →
      (∃ snap, alookup d' dest = some snap ∧ alookup snap ch = some m) := by
  intro s
  induction s with
  | nil =>
    intro _ d d' h hp
    simp [routeSnap] at h
    rw [← h]
    exact hp
  | cons p rest ih =>
    intro hch d d' h hp
    obtain ⟨ch', m'⟩ := p
    rw [akeys_cons, List.mem_cons] at hch
    push_neg at hch
    unfold routeSnap at h
    cases hr : cfg.route m' with
    | none =>
      rw [hr] at h
      simp at h
    | some dest' =>
      simp only [hr] at h
      cases hi : routeInsert d dest' ch' m' with
      | error e =>
        rw [hi] at h
        simp at h
      | ok d1 =>
        rw [hi] at h
        apply ih hch.2 d1 d' h
        obtain ⟨snap, hs1, hs2⟩ := hp
        unfold routeInsert at hi
        cases hl : alookup d dest' with
        | none =>
          rw [hl] at hi
          simp at hi
        | some snapd =>
          rw [hl] at hi
          simp at hi
          subst hi
          by_cases hdd : dest' = dest
          · subst hdd
            rw [hs1] at hl
            simp at hl
            subst hl
            refine ⟨aupsert snap ch' m', alookup_aupsert_self _ _ _, ?_⟩
            rw [alookup_aupsert_ne _ _ _ _ fun hh => hch.1 hh.symm]
            exact hs2
          · refine ⟨snap, ?_, hs2⟩
            rw [alookup_aupsert_ne _ _ _ _ hdd]
            exact hs1

/-- Routing cloud mailboxes none of whose change keys is `ch` preserves
the entry stored under `ch` in any target snapshot. -/
theorem routeClouds_preserves_entry (cfg : Config) (dest ch : Nat) (m : Msg) :
    ∀ (cs : List Nat), (∀ c' ∈ cs, ch ∉ akeys (cfg.messages c')) →
    ∀ d d', routeClouds cfg d cs = .ok d' →
      (∃ snap, alookup d dest = some snap ∧ alookup snap ch = some m) →
      (∃ snap, alookup d' dest = some snap ∧ alookup snap ch = some m) := by
  intro cs
  induction cs with
  | nil =>
    intro _ d d' h hp
    simp [routeClouds] at h
    rw [← h]
    exact hp
  | cons c rest ih =>
    intro hch d d' h hp
    unfold routeClouds at h
    cases hs : routeSnap cfg d (cfg.messages c) with
    | error e =>
      rw [hs] at h
      simp at h
    | ok d1 =>
      rw [hs] at h
      exact ih (fun c' hc' => hch c' (List.mem_cons_of_mem _ hc')) d1 d' h
        (routeSnap_preserves_entry cfg dest ch m (cfg.messages c)
          (hch c (List.mem_cons_self _ _)) d d1 hs hp)

/-- Every target snapshot stored in the dictionary has pairwise
distinct change keys. -/
def goodDict (d : MBoxDict) : Prop :=
  ∀ p ∈ d, (akeys p.2).Nodup

theorem goodDict_initTargets (ls : List Nat) : goodDict (initTargets ls) := by
  unfold initTargets
  suffices h : ∀ d : MBoxDict, goodDict d →
      goodDict (ls.foldl (fun acc l => aupsert acc l []) d) by
    apply h
    intro p hp
    simp at hp
  induction ls with
  | nil =>
    intro d hd
    exact hd
  | cons l rest ih =>
    intro d hd
    rw [List.foldl_cons]
    apply ih
    intro p hp
    rcases mem_aupsert hp with h1 | h1
    · rw [h1]
      simp [akeys]
    · exact hd p h1

theorem goodDict_routeInsert {d d' : MBoxDict} {dest ch : Nat} {m : Msg}
    (h : routeInsert d dest ch m = .ok d') (hg : goodDict d) :
    goodDict d' := by
  unfold routeInsert at h
  cases hl : alookup d dest with
  | none =>
    rw [hl] at h
    simp at h
  | some snap =>
    rw [hl] at h
    simp at h
    subst h
    intro p hp
    rcases mem_aupsert hp with h1 | h1
    · rw [h1]
      exact akeys_aupsert_nodup _ _ _ (hg (dest, snap) (alookup_mem hl))
    · exact hg p h1

theorem goodDict_routeSnap (cfg : Config) (s : Snapshot) :
    ∀ d d', routeSnap cfg d s = .ok d' → goodDict d → goodDict d' := by
  induction s with
  | nil =>
    intro d d' h hg
    simp [routeSnap] at h
    rw [← h]
    exact hg
  | cons p rest ih =>
    intro d d' h hg
    obtain ⟨ch, m⟩ := p
    unfold routeSnap at h
    cases hr : cfg.route m with
    | none =>
      rw [hr] at h
      simp at h
    | some dest =>
      simp only [hr] at h
      cases hi : routeInsert d dest ch m with
      | error e =>
        rw [hi] at h
        simp at h
      | ok d1 =>
        rw [hi] at h
        exact ih d1 d' h (goodDict_routeInsert hi hg)

theorem goodDict_routeClouds (cfg : Config) (cs : List Nat) :
    ∀ d d', routeClouds cfg d cs = .ok d' → goodDict d → goodDict d' := by
  induction cs with
  | nil =>
    intro d d' h hg
    simp [routeClouds] at h
    rw [← h]
    exact hg
  | cons c rest ih =>
    intro d d' h hg
    unfold routeClouds at h
    cases hs : routeSnap cfg d (cfg.messages c) with
    | error e =>
      rw [hs] at h
      simp at h
    | ok d1 =>
      rw [hs] at h
      exact ih d1 d' h (goodDict_routeSnap cfg _ d d1 hs hg)

/-- A message of cloud mailbox 10 under change key 0. -/
def msgA : Msg := ⟨10, 1⟩

/-- A message of cloud mailbox 11 under the same change key 0. -/
def msgB : Msg := ⟨11, 2⟩

/-- Two cloud mailboxes whose snapshots share change key 0, both routed
to the single local mailbox 0. -/
def cfgCollide : Config :=
  { local_mboxes := [0]
    cloud_mboxes := [10, 11]
    messages := fun c =>
      if c = 10 then [(0, msgA)] else if c = 11 then [(0, msgB)] else []
    need_update := fun _ => false
    same_messages := fun _ _ => false
    same_messages_tuple := fun _ _ => false
    route := fun _ => some 0
    domains := [] }

/-- The routing-completeness property exactly as claimed, as a
decidable check over a configuration and the mapping returned by
`force_local_to_cloud`: every cloud (ChangeKey, MessageRecord) pair
appears in its routed target's snapshot as the unique entry under its
key, with its own record. -/
def routingCompleteB (cfg : Config) (r : MBoxDict) : Bool :=
  cfg.cloud_mboxes.all fun c =>
    (cfg.messages c).all fun p =>
      match cfg.route p.2 with
      | none => false
      | some dest =>
        match alookup r dest with
        | none => false
        | some snap =>
          decide (alookup snap p.1 = some p.2)
            && ((snap.filter fun e => decide (e.1 = p.1)).length == 1)

/-- C3 counterexample: in `cfgCollide`, the two cloud mailboxes hold
different records under the same change key 0 and both route to local
mailbox 0, so the second insertion overwrites the first: the entry
under key 0 in the routed snapshot is `msgB`, not mailbox 10's `msgA`,
and the claimed routing-completeness property is false for this
configuration's routing result. -/
theorem claim_C3_counterexample :
    force_local_to_cloud cfgCollide
      = .ok ([Event.forceContent 0 [(0, msgB)]], [(0, [(0, msgB)])])
    ∧ (0, msgA) ∈ cfgCollide.messages 10
    ∧ cfgCollide.route msgA = some 0
    ∧ alookup [(0, [(0, msgB)])] 0 = some [(0, msgB)]
    ∧ alookup [(0, msgB)] 0 = some msgB
    ∧ msgB ≠ msgA
    ∧ routingCompleteB cfgCollide [(0, [(0, msgB)])] = false :=
  ⟨rfl, by decide, rfl, rfl, rfl, by decide, by decide⟩

/-- C3 (amended): under the additional assumption that change keys are
globally unique across the cloud snapshots, for every cloud mailbox `c`
and every `(ch, m)` in its snapshot, the mapping returned by
`force_local_to_cloud` contains, in the target snapshot of the local
mailbox `direct_message(m)`, exactly one entry under key `ch`, and that
entry's record is `m`. -/
theorem claim_C3_routing_completeness (cfg : Config) (evs : List Event)
    (r : MBoxDict) (c ch : Nat) (m : Msg)
    (hok : force_local_to_cloud cfg = .ok (evs, r))
    (huniq : ((cfg.cloud_mboxes.map fun c' =>
        akeys (cfg.messages c')).flatten).Nodup)
    (hc : c ∈ cfg.cloud_mboxes) (hm : (ch, m) ∈ cfg.messages c) :
    ∃ dest snap, cfg.route m = some dest
      ∧ alookup r dest = some snap
      ∧ alookup snap ch = some m
      ∧ (snap.filter fun e => decide (e.1 = ch)).length = 1 := by
  obtain ⟨hroute, hevs⟩ := force_ok_shape hok
  obtain ⟨C1, C2, hsplit⟩ := List.append_of_mem hc
  obtain ⟨s1, s2, hmsg⟩ := List.append_of_mem hm
  unfold routeMsgs at hroute
  rw [hsplit, routeClouds_append] at hroute
  cases h1 : routeClouds cfg (initTargets cfg.local_mboxes) C1 with
  | error e =>
    rw [h1] at hroute
    simp at hroute
  | ok d1 =>
    simp only [h1] at hroute
    rw [routeClouds_cons] at hroute
    cases h2 : routeSnap cfg d1 (cfg.messages c) with
    | error e =>
      rw [h2] at hroute
      simp at hroute
    | ok d2 =>
      simp only [h2] at hroute
      rw [hmsg, routeSnap_append] at h2
      cases h3 : routeSnap cfg d1 s1 with
      | error e =>
        rw [h3] at h2
        simp at h2
      | ok d3 =>
        simp only [h3] at h2
        cases hr : cfg.route m with
        | none =>
          rw [routeSnap_cons_none cfg d3 ch m s2 hr] at h2
          simp at h2
        | some dest =>
          rw [routeSnap_cons_some cfg d3 ch m s2 dest hr] at h2
          cases hi : routeInsert d3 dest ch m with
          | error e =>
            rw [hi] at h2
            simp at h2
          | ok d4 =>
            simp only [hi] at h2
            have hhit : ∃ snap, alookup d4 dest = some snap
                ∧ alookup snap ch = some m := by
              unfold routeInsert at hi
              cases hl : alookup d3 dest with
              | none =>
                rw [hl] at hi
                simp at hi
              | some snap3 =>
                rw [hl] at hi
                simp at hi
                subst hi
                exact ⟨aupsert snap3 ch m, alookup_aupsert_self _ _ _,
                  alookup_aupsert_self _ _ _⟩
            have h0 : (((C1 ++ c :: C2).map fun c' =>
                akeys (cfg.messages c')).flatten).Nodup := by
              rw [← hsplit]
              exact huniq
            rw [List.map_append, List.map_cons, List.flatten_append,
              List.flatten_cons] at h0
            have h1n := (List.nodup_append.mp h0).2.1
            rw [List.nodup_append] at h1n
            obtain ⟨hmc, hF2, hdisj⟩ := h1n
            have hak : akeys (cfg.messages c)
                = akeys s1 ++ ch :: akeys s2 := by
              rw [hmsg]
              unfold akeys
              rw [List.map_append, List.map_cons]
            rw [hak] at hmc hdisj
            have hch_s2 : ch ∉ akeys s2 := by
              have hns := (List.nodup_append.mp hmc).2.1
              exact (List.nodup_cons.mp hns).1
            have hch_C2 : ∀ c' ∈ C2, ch ∉ akeys (cfg.messages c') := by
              intro c' hc' hmem
              exact hdisj (show ch ∈ akeys s1 ++ ch :: akeys s2 by simp)
                (List.mem_flatten.mpr ⟨akeys (cfg.messages c'),
                  List.mem_map_of_mem _ hc', hmem⟩)
            have hp2 := routeSnap_preserves_entry cfg dest ch m s2
              hch_s2 d4 d2 h2 hhit
            have hp3 := routeClouds_preserves_entry cfg dest ch m C2
              hch_C2 d2 r hroute hp2
            obtain ⟨snap, hsr, hsm⟩ := hp3
            have hgood : goodDict r :=
              goodDict_routeClouds cfg C2 d2 r hroute
                (goodDict_routeSnap cfg s2 d4 d2 h2
                  (goodDict_routeInsert hi
                    (goodDict_routeSnap cfg s1 d1 d3 h3
                      (goodDict_routeClouds cfg C1
                        (initTargets cfg.local_mboxes) d1 h1
                        (goodDict_initTargets cfg.local_mboxes)))))
            exact ⟨dest, snap, rfl, hsr, hsm,
              filter_key_singleton snap ch m
                (hgood (dest, snap) (alookup_mem hsr)) hsm⟩

/-- Witness: the amended C3 at `cfgDemo`, whose single cloud message
(1, `msgDemo`) routes to local mailbox 0. -/
theorem claim_C3_routing_completeness_witness :
    force_local_to_cloud cfgDemo
      = .ok ([Event.forceContent 0 [(1, msgDemo)]], [(0, [(1, msgDemo)])])
    ∧ ((cfgDemo.cloud_mboxes.map fun c' =>
        akeys (cfgDemo.messages c')).flatten).Nodup
    ∧ 5 ∈ cfgDemo.cloud_mboxes
    ∧ (1, msgDemo) ∈ cfgDemo.messages 5
    ∧ ∃ dest snap, cfgDemo.route msgDemo = some dest
      ∧ alookup [(0, [(1, msgDemo)])] dest = some snap
      ∧ alookup snap 1 = some msgDemo
      ∧ (snap.filter fun e => decide (e.1 = 1)).length = 1 :=
  ⟨rfl, by decide, by decide, by decide,
   claim_C3_routing_completeness cfgDemo
     [Event.forceContent 0 [(1, msgDemo)]] [(0, [(1, msgDemo)])]
     5 1 msgDemo rfl (by decide) (by decide) (by decide)⟩
